import Mathlib

/-!
Shallow embedding of `src/TurnosPeluqueria.py` (a console appointment manager
for a hair salon) together with proofs about the claims of its specification.

The embedding models:
  * `Cliente` / `Turno` dataclasses (lines 26-64 of the source);
  * the in-memory state of `GestorTurnos` (`clientes : dict`, `turnos : dict`),
    modelled as insertion-ordered association lists, which is exactly the
    observable behaviour of Python dicts;
  * the operations `registrar_cliente`, `solicitar_turno`, `listar_turnos`,
    `modificar_turno`, `cancelar_turno`, `marcar_realizado`;
  * the persistence pair `dump_to_dict`/`load_from_dict` (JSON snapshot) and
    `dump_to_csv`/`load_from_csv` (row export), at the level of structured
    rows/records (the `csv` and `json` byte-level codecs round-trip fields and
    are abstracted away);
  * `datetime.strptime`/`strftime` for the formats `%Y-%m-%d %H:%M` and
    `%Y-%m-%d`, including CPython's digit-count rules and calendar validation;
  * Python exceptions as an `Err` sum type, one constructor per raise site,
    matching the spec's error taxonomy.

`str(uuid.uuid4())` (an opaque fresh appointment id) is modelled by a
deterministic fresh-id generator driven by a counter kept in the state: the
only property the program relies on is that generated ids are fresh, which is
what the counter provides.
-/

/-- Model of Python `str.strip()`: remove whitespace from both ends. -/
def pyStrip (s : String) : String :=
  String.mk ((((s.toList.dropWhile Char.isWhitespace).reverse).dropWhile
    Char.isWhitespace).reverse)

/-- The `Cliente` dataclass (source lines 26-37). -/
structure Cliente where
  dni : String
  nombre : String
  telefono : String
deriving DecidableEq

/-- The `Turno` dataclass (source lines 40-61). -/
structure Turno where
  id : String
  cliente_dni : String
  datetime_str : String
  servicio : String
  estado : String
  notas : String
deriving DecidableEq

/-- A parsed `datetime` value as produced by `strptime` with the format
`%Y-%m-%d %H:%M` (year, month, day, hour, minute). -/
structure FechaHora where
  anio : Nat
  mes : Nat
  dia : Nat
  hora : Nat
  minuto : Nat
deriving DecidableEq

/-- A parsed `date` value for the `%Y-%m-%d` filter format. -/
structure Fecha where
  anio : Nat
  mes : Nat
  dia : Nat
deriving DecidableEq

/-- Gregorian leap-year rule used by `datetime`'s calendar validation. -/
def isLeap (y : Nat) : Bool :=
  (y % 4 == 0 && y % 100 != 0) || y % 400 == 0

/-- Number of days of a month, as validated by the `datetime` constructor. -/
def daysInMonth (y mo : Nat) : Nat :=
  if mo = 2 then (if isLeap y then 29 else 28)
  else if mo = 4 ∨ mo = 6 ∨ mo = 9 ∨ mo = 11 then 30
  else 31

/-- Numeric value of a list of ASCII digit characters, most significant first. -/
def digitsVal (l : List Char) : Nat :=
  l.foldl (fun a c => a * 10 + (c.toNat - 48)) 0

/-- Model of CPython `strptime(s, "%Y-%m-%d %H:%M")`.
`%Y` matches exactly four digits; `%m`, `%d`, `%H`, `%M` match one or two
digits; the literal space matches one or more whitespace characters; the whole
string must be consumed; field values are range-checked and the day is checked
against the calendar, exactly as `datetime.strptime` does (it raises
`ValueError` otherwise, modelled by `none`). -/
def parseDT (s : String) : Option FechaHora :=
  let l := s.toList
  let ys := l.takeWhile Char.isDigit
  let r1 := l.dropWhile Char.isDigit
  if ys.length ≠ 4 then none else
  match r1 with
  | '-' :: r2 =>
    let ms := r2.takeWhile Char.isDigit
    let r3 := r2.dropWhile Char.isDigit
    if ms.length = 0 ∨ 2 < ms.length then none else
    match r3 with
    | '-' :: r4 =>
      let ds := r4.takeWhile Char.isDigit
      let r5 := r4.dropWhile Char.isDigit
      if ds.length = 0 ∨ 2 < ds.length then none else
      let ws := r5.takeWhile Char.isWhitespace
      let r6 := r5.dropWhile Char.isWhitespace
      if ws.length = 0 then none else
      let hs := r6.takeWhile Char.isDigit
      let r7 := r6.dropWhile Char.isDigit
      if hs.length = 0 ∨ 2 < hs.length then none else
      match r7 with
      | ':' :: r8 =>
        let mins := r8.takeWhile Char.isDigit
        let r9 := r8.dropWhile Char.isDigit
        if mins.length = 0 ∨ 2 < mins.length then none else
        if r9 ≠ [] then none else
        let y := digitsVal ys
        let mo := digitsVal ms
        let d := digitsVal ds
        let h := digitsVal hs
        let mi := digitsVal mins
        if 1 ≤ y ∧ 1 ≤ mo ∧ mo ≤ 12 ∧ 1 ≤ d ∧ d ≤ daysInMonth y mo ∧
            h ≤ 23 ∧ mi ≤ 59
        then some ⟨y, mo, d, h, mi⟩ else none
      | _ => none
    | _ => none
  | _ => none

/-- Model of CPython `strptime(s, "%Y-%m-%d").date()` used by the date filter
of `listar_turnos` (source line 206). -/
def parseFecha (s : String) : Option Fecha :=
  let l := s.toList
  let ys := l.takeWhile Char.isDigit
  let r1 := l.dropWhile Char.isDigit
  if ys.length ≠ 4 then none else
  match r1 with
  | '-' :: r2 =>
    let ms := r2.takeWhile Char.isDigit
    let r3 := r2.dropWhile Char.isDigit
    if ms.length = 0 ∨ 2 < ms.length then none else
    match r3 with
    | '-' :: r4 =>
      let ds := r4.takeWhile Char.isDigit
      let r5 := r4.dropWhile Char.isDigit
      if ds.length = 0 ∨ 2 < ds.length then none else
      if r5 ≠ [] then none else
      let y := digitsVal ys
      let mo := digitsVal ms
      let d := digitsVal ds
      if 1 ≤ y ∧ 1 ≤ mo ∧ mo ≤ 12 ∧ 1 ≤ d ∧ d ≤ daysInMonth y mo
      then some ⟨y, mo, d⟩ else none
    | _ => none
  | _ => none

/-- The ASCII digit character of `n % 10`. -/
def digitChar (n : Nat) : Char := Char.ofNat (48 + n % 10)

/-- Two-digit zero-padded rendering (`%02d` for values below 100). -/
def pad2c (n : Nat) : List Char := [digitChar (n / 10), digitChar n]

/-- Four-digit zero-padded rendering (`%04d` for values below 10000). -/
def pad4c (n : Nat) : List Char :=
  [digitChar (n / 1000), digitChar (n / 100), digitChar (n / 10), digitChar n]

/-- Model of `dt.strftime("%Y-%m-%d %H:%M")`: the canonical zero-padded
rendering of a parsed timestamp. -/
def formatDT (dt : FechaHora) : String :=
  String.mk (pad4c dt.anio ++ '-' :: pad2c dt.mes ++ '-' :: pad2c dt.dia ++
    ' ' :: pad2c dt.hora ++ ':' :: pad2c dt.minuto)

/-- Encoding of a timestamp as a single natural number; because every
component is below its radix (13, 32, 24, 60) for calendar-valid timestamps,
the order of `dtKey` coincides with the lexicographic component order used by
Python when comparing `datetime` objects (see `dtKey_le_iff`). -/
def dtKey (dt : FechaHora) : Nat :=
  (((dt.anio * 13 + dt.mes) * 32 + dt.dia) * 24 + dt.hora) * 60 + dt.minuto

/-- The error taxonomy of the manager: one constructor per raise site of the
source (`ValueError`/`KeyError` with the corresponding message). -/
inductive Err where
  | duplicateClient
  | unknownClient
  | invalidTimestamp
  | invalidDate
  | slotConflict
  | notFound
deriving DecidableEq

/-- Python dict assignment `d[k] = v` on an insertion-ordered association
list: if the key is present its value is replaced in place (dict keys are
unique, so replacing the first occurrence is exact), otherwise the binding is
appended at the end. -/
def dictSet (k : String) (v : α) : List (String × α) → List (String × α)
  | [] => [(k, v)]
  | p :: t => if p.1 == k then (k, v) :: t else p :: dictSet k v t

/-- Model of `str(uuid.uuid4())`: an injective fresh-id generator (freshness
is the only property of uuid4 the program relies on). -/
def mkId (n : Nat) : String := String.mk (List.replicate (n + 1) 'u')

/-- In-memory state of `GestorTurnos` (source lines 67-87): the two dicts,
plus the counter driving the fresh-id generator. File paths are configuration
for the I/O layer and carry no program logic. -/
structure GestorTurnos where
  clientes : List (String × Cliente)
  turnos : List (String × Turno)
  nextId : Nat
deriving DecidableEq

/-- The empty manager (no snapshot nor CSV present at startup). -/
def emptyGestor : GestorTurnos := ⟨[], [], 0⟩

/-- Membership test `dni in self.clientes` (dict key membership). -/
def hasCliente (g : GestorTurnos) (dni : String) : Bool :=
  g.clientes.any (·.1 == dni)

/-- `GestorTurnos.registrar_cliente` (source lines 160-168). -/
def registrar_cliente (g : GestorTurnos) (dni nombre telefono : String) :
    Except Err (GestorTurnos × Cliente) :=
  let dni := pyStrip dni
  if hasCliente g dni then .error .duplicateClient
  else
    let cliente : Cliente := ⟨dni, pyStrip nombre, pyStrip telefono⟩
    .ok ({ g with clientes := dictSet dni cliente g.clientes }, cliente)

/-- `GestorTurnos.solicitar_turno` (source lines 170-190). -/
def solicitar_turno (g : GestorTurnos) (cliente_dni datetime_str servicio notas : String) :
    Except Err (GestorTurnos × Turno) :=
  if ¬ hasCliente g cliente_dni then .error .unknownClient
  else match parseDT datetime_str with
    | none => .error .invalidTimestamp
    | some dt =>
      if g.turnos.any (fun p => p.2.estado == "activo" && p.2.datetime_str == formatDT dt)
      then .error .slotConflict
      else
        let turno_id := mkId g.nextId
        let t : Turno := ⟨turno_id, cliente_dni, formatDT dt, pyStrip servicio,
          "activo", pyStrip notas⟩
        .ok ({ g with turnos := dictSet turno_id t g.turnos, nextId := g.nextId + 1 }, t)

/-- Truthiness of the optional string arguments of the source (`if estado`,
`if filtro_fecha`, `if nuevo_datetime_str`): `None` and the empty string are
falsy. -/
def pyTruthy : Option String → Bool
  | none => false
  | some s => s != ""

/-- One string filter of `listar_turnos`: the row passes when the filter is
falsy (absent or empty) or the field equals the filter value. -/
def passesStr (f : Option String) (x : String) : Bool :=
  !(pyTruthy f) || x == f.getD ""

/-- Date component comparison `t.datetime_obj().date() == d`. -/
def mismaFecha (dt : FechaHora) (d : Fecha) : Bool :=
  dt.anio == d.anio && dt.mes == d.mes && dt.dia == d.dia

/-- The filtering loop of `listar_turnos` (source lines 197-211), iterating
the appointments in dict order.  The date filter is parsed inside the loop,
when (and only when) a row has already passed the status and client filters;
an unparsable stored timestamp makes `datetime_obj` raise. -/
def listarLoop (fdni ffecha festado : Option String) : List Turno → Except Err (List Turno)
  | [] => .ok []
  | t :: ts =>
    if !(passesStr festado t.estado) then listarLoop fdni ffecha festado ts
    else if !(passesStr fdni t.cliente_dni) then listarLoop fdni ffecha festado ts
    else if pyTruthy ffecha then
      match parseFecha (ffecha.getD "") with
      | none => .error .invalidDate
      | some d =>
        match parseDT t.datetime_str with
        | none => .error .invalidTimestamp
        | some dt =>
          if mismaFecha dt d then (listarLoop fdni ffecha festado ts).map (t :: ·)
          else listarLoop fdni ffecha festado ts
    else (listarLoop fdni ffecha festado ts).map (t :: ·)

/-- Sort-key computation of `results.sort(key=lambda x: x.datetime_obj())`:
each kept appointment is decorated with its parsed timestamp; a row whose
stored timestamp no longer parses makes the key function raise. -/
def decorate : List Turno → Option (List (Turno × FechaHora))
  | [] => some []
  | t :: ts =>
    match parseDT t.datetime_str, decorate ts with
    | some dt, some ps => some ((t, dt) :: ps)
    | _, _ => none

/-- Stable insertion of `x` into a sorted list: `x` is placed before the first
element it is `le`-below, hence after every earlier tie. -/
def insertLe (le : α → α → Bool) (x : α) : List α → List α
  | [] => [x]
  | y :: ys => if le x y then x :: y :: ys else y :: insertLe le x ys

/-- Stable ascending sort, modelling Python `list.sort` (which is the unique
stable sort for a total preorder). -/
def sortLe (le : α → α → Bool) : List α → List α
  | [] => []
  | x :: xs => insertLe le x (sortLe le xs)

/-- Comparison of two decorated rows by parsed timestamp. -/
def dtLeb (p q : Turno × FechaHora) : Bool := decide (dtKey p.2 ≤ dtKey q.2)

/-- `GestorTurnos.listar_turnos` (source lines 192-214): filter in dict order,
then sort ascending by the parsed timestamp. -/
def listar_turnos (g : GestorTurnos) (filtro_cliente_dni filtro_fecha estado : Option String) :
    Except Err (List Turno) :=
  match listarLoop filtro_cliente_dni filtro_fecha estado (g.turnos.map (·.2)) with
  | .error e => .error e
  | .ok results =>
    match decorate results with
    | none => .error .invalidTimestamp
    | some pairs => .ok ((sortLe dtLeb pairs).map (·.1))

/-- `GestorTurnos.modificar_turno` (source lines 216-237).  `nuevo_datetime_str`
is tested for truthiness (the empty string counts as unset), while
`nuevo_servicio` and `nuevas_notas` are compared against `None` only. -/
def modificar_turno (g : GestorTurnos) (turno_id : String)
    (nuevo_datetime_str nuevo_servicio nuevas_notas : Option String) :
    Except Err (GestorTurnos × Turno) :=
  match g.turnos.lookup turno_id with
  | none => .error .notFound
  | some t =>
    let paso1 : Except Err Turno :=
      match nuevo_datetime_str with
      | none => .ok t
      | some s =>
        if s == "" then .ok t
        else match parseDT s with
          | none => .error .invalidTimestamp
          | some dt =>
            if g.turnos.any (fun p => p.2.id != t.id && p.2.estado == "activo" &&
                p.2.datetime_str == formatDT dt)
            then .error .slotConflict
            else .ok { t with datetime_str := formatDT dt }
    paso1.map fun t1 =>
      let t2 := match nuevo_servicio with
        | some s => { t1 with servicio := pyStrip s }
        | none => t1
      let t3 := match nuevas_notas with
        | some s => { t2 with notas := pyStrip s }
        | none => t2
      ({ g with turnos := dictSet turno_id t3 g.turnos }, t3)

/-- `GestorTurnos.cancelar_turno` (source lines 239-246). -/
def cancelar_turno (g : GestorTurnos) (turno_id : String) :
    Except Err (GestorTurnos × Turno) :=
  match g.turnos.lookup turno_id with
  | none => .error .notFound
  | some t =>
    let t1 := { t with estado := "cancelado" }
    .ok ({ g with turnos := dictSet turno_id t1 g.turnos }, t1)

/-- `GestorTurnos.marcar_realizado` (source lines 248-255). -/
def marcar_realizado (g : GestorTurnos) (turno_id : String) :
    Except Err (GestorTurnos × Turno) :=
  match g.turnos.lookup turno_id with
  | none => .error .notFound
  | some t =>
    let t1 := { t with estado := "realizado" }
    .ok ({ g with turnos := dictSet turno_id t1 g.turnos }, t1)

/-- One mutating console operation against the manager. -/
inductive Op where
  | registrar (dni nombre telefono : String)
  | solicitar (cliente_dni datetime_str servicio notas : String)
  | modificar (turno_id : String) (nuevo_datetime_str nuevo_servicio nuevas_notas : Option String)
  | cancelar (turno_id : String)
  | marcar (turno_id : String)
deriving DecidableEq

/-- Effect of one operation on the state; a raised error leaves the state
unchanged (every raise in the source happens before any mutation). -/
def applyOp (g : GestorTurnos) : Op → GestorTurnos
  | .registrar dni nombre telefono =>
    match registrar_cliente g dni nombre telefono with
    | .ok (g1, _) => g1
    | .error _ => g
  | .solicitar cliente_dni datetime_str servicio notas =>
    match solicitar_turno g cliente_dni datetime_str servicio notas with
    | .ok (g1, _) => g1
    | .error _ => g
  | .modificar turno_id ndt nsv nnt =>
    match modificar_turno g turno_id ndt nsv nnt with
    | .ok (g1, _) => g1
    | .error _ => g
  | .cancelar turno_id =>
    match cancelar_turno g turno_id with
    | .ok (g1, _) => g1
    | .error _ => g
  | .marcar turno_id =>
    match marcar_realizado g turno_id with
    | .ok (g1, _) => g1
    | .error _ => g

/-- State reached by a sequence of operations from the empty manager. -/
def run (ops : List Op) : GestorTurnos := ops.foldl applyOp emptyGestor

/-- JSON value of a client as written by `Cliente.to_dict` and read by
`Cliente.from_dict` (source lines 32-37): `dni` and `nombre` are read with
`d[...]`, `telefono` with `d.get("telefono", "")`, hence optional. -/
structure ClienteDict where
  dni : String
  nombre : String
  telefono : Option String
deriving DecidableEq

/-- JSON value of an appointment as written by `Turno.to_dict` and read by
`Turno.from_dict` (source lines 49-61): `estado` and `notas` are read with
`d.get`, hence optional. -/
structure TurnoDict where
  id : String
  cliente_dni : String
  datetime_str : String
  servicio : String
  estado : Option String
  notas : Option String
deriving DecidableEq

/-- `Cliente.to_dict` (source lines 32-33): `asdict` keeps every field. -/
def Cliente.to_dict (c : Cliente) : ClienteDict := ⟨c.dni, c.nombre, some c.telefono⟩

/-- `Cliente.from_dict` (source lines 35-37). -/
def Cliente.from_dict (d : ClienteDict) : Cliente := ⟨d.dni, d.nombre, d.telefono.getD ""⟩

/-- `Turno.to_dict` (source lines 49-50). -/
def Turno.to_dict (t : Turno) : TurnoDict :=
  ⟨t.id, t.cliente_dni, t.datetime_str, t.servicio, some t.estado, some t.notas⟩

/-- `Turno.from_dict` (source lines 52-61). -/
def Turno.from_dict (d : TurnoDict) : Turno :=
  ⟨d.id, d.cliente_dni, d.datetime_str, d.servicio, d.estado.getD "activo", d.notas.getD ""⟩

/-- Content of the JSON "dict" file: the two mappings, keyed by each entity's
own id (source lines 145-148). -/
structure DictFile where
  clientes : List (String × ClienteDict)
  turnos : List (String × TurnoDict)
deriving DecidableEq

/-- `GestorTurnos.dump_to_dict` (source lines 143-150), at the level of the
structured JSON content. -/
def dump_to_dict (g : GestorTurnos) : DictFile :=
  ⟨g.clientes.map (fun p => (p.1, p.2.to_dict)),
   g.turnos.map (fun p => (p.1, p.2.to_dict))⟩

/-- `GestorTurnos.load_from_dict` (source lines 152-157): the two in-memory
dicts rebuilt from the JSON content. -/
def load_from_dict (f : DictFile) : List (String × Cliente) × List (String × Turno) :=
  (f.clientes.map (fun p => (p.1, Cliente.from_dict p.2)),
   f.turnos.map (fun p => (p.1, Turno.from_dict p.2)))

/-- One data row written by `dump_to_csv` (source lines 100-111): appointment
fields flattened with the denormalized client name and phone, looked up by
`cliente_dni` (empty strings when the client is missing). -/
def dumpRow (g : GestorTurnos) (t : Turno) : List String :=
  match g.clientes.lookup t.cliente_dni with
  | some cli => [t.id, t.cliente_dni, cli.nombre, cli.telefono, t.datetime_str,
      t.servicio, t.estado, t.notas]
  | none => [t.id, t.cliente_dni, "", "", t.datetime_str, t.servicio, t.estado, t.notas]

/-- `GestorTurnos.dump_to_csv` (source lines 90-116): the list of data rows,
one per appointment in dict order (the header row and the byte-level CSV
encoding, which round-trips fields, are abstracted away). -/
def dump_to_csv (g : GestorTurnos) : List (List String) :=
  g.turnos.map (fun p => dumpRow g p.2)

/-- An appointment as rebuilt by `load_from_csv`.  `csv.DictReader` fills the
cells a short row is missing with `None`, and the loader stores those values
unprocessed, so the four fields the loader never strips can hold Python
`None`, modelled by `Option`. -/
structure TurnoL where
  id : String
  cliente_dni : String
  datetime_str : Option String
  servicio : Option String
  estado : Option String
  notas : Option String
deriving DecidableEq

/-- The image of an in-memory appointment under a lossless CSV round trip. -/
def Turno.toL (t : Turno) : TurnoL :=
  ⟨t.id, t.cliente_dni, some t.datetime_str, some t.servicio, some t.estado, some t.notas⟩

/-- In-memory state being rebuilt by `load_from_csv`. -/
structure LoadSt where
  clientes : List (String × Cliente)
  turnos : List (String × TurnoL)
deriving DecidableEq

/-- One iteration of the row loop of `load_from_csv` (source lines 126-141),
on the cells of one data row.  `none` models an exception escaping the loop:
`row["cliente_dni"]` is `None` on a row with fewer than two cells, and
`.strip()` on `None` raises; likewise for the name and phone cells when a new
client record is built.  `csv.DictReader` skips blank rows, and cells beyond
the eight header columns are ignored. -/
def processRow (st : LoadSt) (r : List String) : Option LoadSt :=
  match r with
  | [] => some st
  | [_] => none
  | c0 :: c1 :: rest =>
    let dni := pyStrip c1
    let cs? : Option (List (String × Cliente)) :=
      if dni != "" && !(st.clientes.any (·.1 == dni)) then
        match rest.get? 0, rest.get? 1 with
        | some nom, some tel =>
          some (dictSet dni ⟨dni, pyStrip nom, pyStrip tel⟩ st.clientes)
        | _, _ => none
      else some st.clientes
    cs?.map fun cs =>
      let t : TurnoL := ⟨c0, dni, rest.get? 2, rest.get? 3, rest.get? 4, rest.get? 5⟩
      ⟨cs, dictSet c0 t st.turnos⟩

/-- The row loop of `load_from_csv`: rows are processed in order and the first
exception aborts the loop, keeping everything loaded so far (the caller merely
logs a warning).  The boolean records whether the loop finished. -/
def loadRows : LoadSt → List (List String) → LoadSt × Bool
  | st, [] => (st, true)
  | st, r :: rs =>
    match processRow st r with
    | some st1 => loadRows st1 rs
    | none => (st, false)

/-- `GestorTurnos.load_from_csv` (source lines 118-141): both dicts are
cleared and then rebuilt from the data rows. -/
def load_from_csv (rows : List (List String)) : LoadSt × Bool :=
  loadRows ⟨[], []⟩ rows

/-- No two distinct appointments are both active at the same timestamp
(entries are identified by their dict key). -/
def ActivosUnicos (l : List (String × Turno)) : Prop :=
  ∀ p ∈ l, ∀ q ∈ l, p.2.estado = "activo" → q.2.estado = "activo" →
    p.2.datetime_str = q.2.datetime_str → p.1 = q.1

/-- A stored timestamp that parses and is already in the canonical
zero-padded `strftime` form. -/
def canonicalDT (s : String) : Prop := (parseDT s).map formatDT = some s

/-- Shape of the client dict maintained by the operations: keys are stripped,
each record carries its own key, and its fields are stripped. -/
def ClientesWF (g : GestorTurnos) : Prop :=
  ∀ p ∈ g.clientes, pyStrip p.1 = p.1 ∧ p.2.dni = p.1 ∧
    pyStrip p.2.nombre = p.2.nombre ∧ pyStrip p.2.telefono = p.2.telefono

/-- Shape of the appointment dict maintained by the operations: each record
carries its own key, references a registered client by a stripped id, stores a
canonical timestamp, and its key came from the fresh-id generator. -/
def TurnosWF (g : GestorTurnos) : Prop :=
  ∀ p ∈ g.turnos, p.2.id = p.1 ∧ pyStrip p.2.cliente_dni = p.2.cliente_dni ∧
    canonicalDT p.2.datetime_str ∧ (g.clientes.lookup p.2.cliente_dni).isSome = true ∧
    p.1 ∈ (List.range g.nextId).map mkId

/-- The state invariant maintained by every operation from the empty manager. -/
def Invariante (g : GestorTurnos) : Prop :=
  (g.clientes.map Prod.fst).Nodup ∧ (g.turnos.map Prod.fst).Nodup ∧
  ActivosUnicos g.turnos ∧ ClientesWF g ∧ TurnosWF g

/-- Bounds satisfied by every timestamp accepted by `parseDT`: these are the
`datetime` constructor's own validity constraints (plus the four-digit year
bound of the `%Y` pattern). -/
def ValidDT (dt : FechaHora) : Prop :=
  1 ≤ dt.anio ∧ dt.anio ≤ 9999 ∧ 1 ≤ dt.mes ∧ dt.mes ≤ 12 ∧ 1 ≤ dt.dia ∧
  dt.dia ≤ daysInMonth dt.anio dt.mes ∧ dt.hora ≤ 23 ∧ dt.minuto ≤ 59

instance (s : String) : Decidable (canonicalDT s) := by
  unfold canonicalDT; infer_instance

instance (l : List (String × Turno)) : Decidable (ActivosUnicos l) := by
  unfold ActivosUnicos; infer_instance

instance (g : GestorTurnos) : Decidable (ClientesWF g) := by
  unfold ClientesWF; infer_instance

instance (g : GestorTurnos) : Decidable (TurnosWF g) := by
  unfold TurnosWF; infer_instance

instance (g : GestorTurnos) : Decidable (Invariante g) := by
  unfold Invariante; infer_instance

instance (dt : FechaHora) : Decidable (ValidDT dt) := by
  unfold ValidDT; infer_instance

/-- Sort key of one listed appointment: the parsed timestamp encoded by
`dtKey` (defaulting to 0 for an unparsable stored timestamp, which cannot
occur in a reachable state). -/
def dtKeyOf (t : Turno) : Nat := (Option.map dtKey (parseDT t.datetime_str)).getD 0

/-- Example sequence: one client and one active appointment. -/
def opsA : List Op :=
  [Op.registrar "111" "Ana Gomez" "", Op.solicitar "111" "2024-03-01 10:00" "Cut" ""]

/-- `opsA` plus a second appointment one hour later. -/
def opsA2 : List Op := opsA ++ [Op.solicitar "111" "2024-03-01 11:00" "Color" ""]

/-- `opsA` with the appointment then marked as done. -/
def opsB : List Op := opsA ++ [Op.marcar (mkId 0)]

/-- A client registered under the empty id, with an appointment booked for it. -/
def opsC : List Op :=
  [Op.registrar "" "Ana" "123", Op.solicitar "" "2024-03-01 10:00" "Cut" ""]

/-- Cancel the first appointment, then book another one at the same slot. -/
def opsD : List Op :=
  opsA ++ [Op.cancelar (mkId 0), Op.solicitar "111" "2024-03-01 10:00" "Color" ""]

/-- A malformed CSV data row: a single cell. -/
def rowBad : List String := ["x"]

/-- A well-formed CSV data row. -/
def rowGood : List String :=
  ["id1", "111", "Ana", "5551", "2024-03-01 10:00", "Cut", "activo", ""]

theorem dictSet_cons_eq {α : Type} {k : String} {q : String × α} {v : α}
    {t : List (String × α)} (h : q.1 = k) : dictSet k v (q :: t) = (k, v) :: t := by
  simp [dictSet, h]

theorem dictSet_cons_ne {α : Type} {k : String} {q : String × α} {v : α}
    {t : List (String × α)} (h : q.1 ≠ k) : dictSet k v (q :: t) = q :: dictSet k v t := by
  simp [dictSet, h]

theorem lookup_cons_self {α : Type} {k : String} {q : String × α}
    {t : List (String × α)} (h : k = q.1) : (q :: t).lookup k = some q.2 := by
  simp [List.lookup, h]

theorem lookup_cons_ne {α : Type} {k : String} {q : String × α}
    {t : List (String × α)} (h : k ≠ q.1) : (q :: t).lookup k = t.lookup k := by
  simp [List.lookup, beq_eq_false_iff_ne.mpr h]

theorem lookup_dictSet {α : Type} (k : String) (v : α) (l : List (String × α)) :
    (dictSet k v l).lookup k = some v := by
  induction l with
  | nil => simp [dictSet, List.lookup]
  | cons q t ih =>
    rcases eq_or_ne q.1 k with h | h
    · rw [dictSet_cons_eq h]
      simp [List.lookup]
    · rw [dictSet_cons_ne h, lookup_cons_ne (fun e => h e.symm), ih]

theorem lookup_dictSet_ne {α : Type} {k j : String} (v : α) (l : List (String × α))
    (hjk : j ≠ k) : (dictSet k v l).lookup j = l.lookup j := by
  induction l with
  | nil => simp [dictSet, List.lookup, beq_eq_false_iff_ne.mpr hjk]
  | cons q t ih =>
    rcases eq_or_ne q.1 k with h | h
    · rw [dictSet_cons_eq h]
      rw [lookup_cons_ne (by simpa using hjk), lookup_cons_ne (by simp [h, hjk])]
    · rw [dictSet_cons_ne h]
      rcases eq_or_ne j q.1 with h2 | h2
      · rw [lookup_cons_self h2, lookup_cons_self h2]
      · rw [lookup_cons_ne h2, lookup_cons_ne h2, ih]

theorem mem_dictSet {α : Type} {k : String} {v : α} {l : List (String × α)}
    {p : String × α} (hp : p ∈ dictSet k v l) : p = (k, v) ∨ p ∈ l := by
  induction l with
  | nil => simpa [dictSet] using hp
  | cons q t ih =>
    rcases eq_or_ne q.1 k with h | h
    · rw [dictSet_cons_eq h] at hp
      rcases List.mem_cons.1 hp with hp | hp
      · exact Or.inl hp
      · exact Or.inr (List.mem_cons_of_mem _ hp)
    · rw [dictSet_cons_ne h] at hp
      rcases List.mem_cons.1 hp with hp | hp
      · exact Or.inr (by simp [hp])
      · rcases ih hp with hh | hh
        · exact Or.inl hh
        · exact Or.inr (List.mem_cons_of_mem _ hh)

theorem mem_dictSet_nodup {α : Type} {k : String} {v : α} {l : List (String × α)}
    {p : String × α} (hnd : (l.map Prod.fst).Nodup) (hp : p ∈ dictSet k v l) :
    p = (k, v) ∨ (p ∈ l ∧ p.1 ≠ k) := by
  induction l with
  | nil => simpa [dictSet] using hp
  | cons q t ih =>
    simp only [List.map_cons, List.nodup_cons] at hnd
    rcases eq_or_ne q.1 k with h | h
    · rw [dictSet_cons_eq h] at hp
      rcases List.mem_cons.1 hp with hp | hp
      · exact Or.inl hp
      · refine Or.inr ⟨List.mem_cons_of_mem _ hp, fun hk => ?_⟩
        exact hnd.1 (h ▸ hk ▸ List.mem_map_of_mem Prod.fst hp)
    · rw [dictSet_cons_ne h] at hp
      rcases List.mem_cons.1 hp with hp | hp
      · exact Or.inr ⟨by simp [hp], by simpa [hp] using h⟩
      · rcases ih hnd.2 hp with hh | hh
        · exact Or.inl hh
        · exact Or.inr ⟨List.mem_cons_of_mem _ hh.1, hh.2⟩

theorem dictSet_of_not_mem {α : Type} {k : String} (v : α) {l : List (String × α)}
    (h : l.any (·.1 == k) = false) : dictSet k v l = l ++ [(k, v)] := by
  induction l with
  | nil => simp [dictSet]
  | cons q t ih =>
    simp only [List.any_cons, Bool.or_eq_false_iff, beq_eq_false_iff_ne] at h
    rw [dictSet_cons_ne h.1, ih (by simpa [beq_eq_false_iff_ne] using h.2)]
    simp

theorem map_fst_dictSet_of_mem {α : Type} {k : String} (v : α) {l : List (String × α)}
    (h : l.any (·.1 == k) = true) :
    (dictSet k v l).map Prod.fst = l.map Prod.fst := by
  induction l with
  | nil => simp at h
  | cons q t ih =>
    rcases eq_or_ne q.1 k with h1 | h1
    · rw [dictSet_cons_eq h1]
      simp [h1]
    · simp only [List.any_cons, Bool.or_eq_true_iff] at h
      rcases h with hh | hh
      · exact absurd (by simpa using hh) h1
      · rw [dictSet_cons_ne h1]
        simp [ih hh]

theorem lookup_mem {α : Type} {l : List (String × α)} {k : String} {v : α}
    (h : l.lookup k = some v) : (k, v) ∈ l := by
  induction l with
  | nil => simp [List.lookup] at h
  | cons q t ih =>
    rcases eq_or_ne k q.1 with h1 | h1
    · rw [lookup_cons_self h1] at h
      have hv : q.2 = v := Option.some.inj h
      have he : (k, v) = q := by rw [h1, ← hv]
      rw [he]
      exact List.mem_cons_self q t
    · rw [lookup_cons_ne h1] at h
      exact List.mem_cons_of_mem _ (ih h)

theorem lookup_isSome_iff_any {α : Type} {l : List (String × α)} {k : String} :
    (l.lookup k).isSome = true ↔ l.any (·.1 == k) = true := by
  induction l with
  | nil => simp [List.lookup]
  | cons q t ih =>
    rcases eq_or_ne k q.1 with h1 | h1
    · rw [lookup_cons_self h1]
      simp [h1.symm]
    · rw [lookup_cons_ne h1]
      have hqk : (q.1 == k) = false := beq_eq_false_iff_ne.mpr (fun e => h1 e.symm)
      simp [List.any_cons, hqk, ih]

theorem any_key_iff {α : Type} {l : List (String × α)} {k : String} :
    l.any (·.1 == k) = true ↔ k ∈ l.map Prod.fst := by
  simp only [List.any_eq_true, List.mem_map, beq_iff_eq]


theorem lookup_eq_of_mem_nodup {α : Type} {l : List (String × α)} {k : String} {v : α}
    (hnd : (l.map Prod.fst).Nodup) (h : (k, v) ∈ l) : l.lookup k = some v := by
  induction l with
  | nil => simp at h
  | cons q t ih =>
    simp only [List.map_cons, List.nodup_cons] at hnd
    rcases List.mem_cons.1 h with h1 | h1
    · rw [lookup_cons_self (by rw [← h1]), ← h1]
    · have hq : k ≠ q.1 := by
        intro he
        exact hnd.1 (he ▸ List.mem_map_of_mem Prod.fst h1)
      rw [lookup_cons_ne hq]
      exact ih hnd.2 h1

theorem dropWhile_head_false {α : Type} {P : α → Bool} :
    ∀ (l : List α) {c : α} {r : List α}, l.dropWhile P = c :: r → P c = false := by
  intro l
  induction l with
  | nil => intro c r h; simp at h
  | cons a t ih =>
    intro c r h
    rw [List.dropWhile_cons] at h
    by_cases ha : P a = true
    · rw [if_pos ha] at h
      exact ih h
    · rw [if_neg ha] at h
      rw [← (List.cons.inj h).1]
      simpa using ha

theorem dropWhile_dropWhile {α : Type} {P : α → Bool} (l : List α) :
    (l.dropWhile P).dropWhile P = l.dropWhile P := by
  cases h : l.dropWhile P with
  | nil => simp
  | cons c r =>
    have hc := dropWhile_head_false l h
    rw [List.dropWhile_cons, if_neg (by simp [hc])]

theorem pyStrip_pyStrip (s : String) : pyStrip (pyStrip s) = pyStrip s := by
  unfold pyStrip
  apply congrArg String.mk
  have htl : ∀ l : List Char, (String.mk l).toList = l := fun _ => rfl
  rw [htl]
  set ws := Char.isWhitespace with hws
  set a := s.toList.dropWhile ws with ha
  set res := (a.reverse.dropWhile ws).reverse with hres
  have hstep1 : res.dropWhile ws = res := by
    cases hr : res with
    | nil => simp
    | cons c r =>
      have hpre : res <+: a := by
        have h1 : res.reverse <:+ a.reverse := by
          rw [hres, List.reverse_reverse]
          exact List.dropWhile_suffix ws
        have h2 := List.reverse_prefix.mpr h1
        rwa [List.reverse_reverse, List.reverse_reverse] at h2
      rcases hpre with ⟨tail, htail⟩
      rw [hr] at htail
      have hcfalse : ws c = false := by
        apply dropWhile_head_false (s.toList) (r := r ++ tail)
        rw [ha] at htail
        rw [← htail]
        rfl
      rw [List.dropWhile_cons, if_neg (by simp [hcfalse])]
  rw [hstep1, hres, List.reverse_reverse, dropWhile_dropWhile]

theorem toNat_ofNat_digit : ∀ k, k < 10 → (Char.ofNat (48 + k)).toNat = 48 + k := by
  intro k hk
  interval_cases k <;> rfl

theorem isDigit_ofNat_digit : ∀ k, k < 10 → (Char.ofNat (48 + k)).isDigit = true := by
  intro k hk
  interval_cases k <;> rfl

theorem isWs_ofNat_digit : ∀ k, k < 10 → (Char.ofNat (48 + k)).isWhitespace = false := by
  intro k hk
  interval_cases k <;> rfl

theorem toNat_digitChar (n : Nat) : (digitChar n).toNat = 48 + n % 10 :=
  toNat_ofNat_digit (n % 10) (Nat.mod_lt _ (by omega))

theorem isDigit_digitChar (n : Nat) : (digitChar n).isDigit = true :=
  isDigit_ofNat_digit (n % 10) (Nat.mod_lt _ (by omega))

theorem isWs_digitChar (n : Nat) : (digitChar n).isWhitespace = false :=
  isWs_ofNat_digit (n % 10) (Nat.mod_lt _ (by omega))

theorem isDigit_pad2c {n : Nat} : ∀ x ∈ pad2c n, x.isDigit = true := by
  intro x hx
  simp only [pad2c, List.mem_cons, List.mem_singleton, List.not_mem_nil, or_false] at hx
  rcases hx with rfl | rfl
  · exact isDigit_digitChar _
  · exact isDigit_digitChar _

theorem isDigit_pad4c {n : Nat} : ∀ x ∈ pad4c n, x.isDigit = true := by
  intro x hx
  simp only [pad4c, List.mem_cons, List.mem_singleton, List.not_mem_nil, or_false] at hx
  rcases hx with rfl | rfl | rfl | rfl
  · exact isDigit_digitChar _
  · exact isDigit_digitChar _
  · exact isDigit_digitChar _
  · exact isDigit_digitChar _

theorem digitsVal_pad2c {n : Nat} (h : n < 100) : digitsVal (pad2c n) = n := by
  unfold digitsVal pad2c
  simp only [List.foldl_cons, List.foldl_nil, toNat_digitChar]
  omega

theorem digitsVal_pad4c {n : Nat} (h : n < 10000) : digitsVal (pad4c n) = n := by
  unfold digitsVal pad4c
  simp only [List.foldl_cons, List.foldl_nil, toNat_digitChar]
  omega

theorem takeWhile_prefix_append {α : Type} {P : α → Bool} :
    ∀ (l : List α) (c : α) (r : List α), (∀ x ∈ l, P x = true) → P c = false →
      (l ++ c :: r).takeWhile P = l ∧ (l ++ c :: r).dropWhile P = c :: r := by
  intro l
  induction l with
  | nil =>
    intro c r _ hc
    constructor
    · simp [List.takeWhile_cons, hc]
    · simp [List.dropWhile_cons, hc]
  | cons a t ih =>
    intro c r hall hc
    have ha : P a = true := hall a (by simp)
    have ht := ih c r (fun x hx => hall x (by simp [hx])) hc
    constructor
    · simp only [List.cons_append, List.takeWhile_cons, ha, if_true, ht.1]
    · simp only [List.cons_append, List.dropWhile_cons, ha, if_true, ht.2]

theorem takeWhile_all {α : Type} {P : α → Bool} :
    ∀ (l : List α), (∀ x ∈ l, P x = true) →
      l.takeWhile P = l ∧ l.dropWhile P = [] := by
  intro l
  induction l with
  | nil => simp
  | cons a t ih =>
    intro hall
    have ha : P a = true := hall a (by simp)
    have ht := ih (fun x hx => hall x (by simp [hx]))
    constructor
    · simp only [List.takeWhile_cons, ha, if_true, ht.1]
    · simp only [List.dropWhile_cons, ha, if_true, ht.2]

theorem digitsVal_lt {l : List Char} (h : ∀ x ∈ l, x.isDigit = true) :
    digitsVal l < 10 ^ l.length := by
  suffices haux : ∀ (l : List Char) (a : Nat), (∀ x ∈ l, x.isDigit = true) →
      l.foldl (fun a c => a * 10 + (c.toNat - 48)) a < (a + 1) * 10 ^ l.length by
    have := haux l 0 h
    simpa [digitsVal] using this
  intro l
  induction l with
  | nil => intro a _; simp
  | cons c t ih =>
    intro a hall
    have hc : c.isDigit = true := hall c (by simp)
    have hc9 : c.toNat - 48 ≤ 9 := by
      have h57 : c.toNat ≤ 57 := by
        have hc2 := hc
        unfold Char.isDigit at hc2
        rw [Bool.and_eq_true] at hc2
        have h3 := hc2.2
        simp only [decide_eq_true_eq] at h3
        exact h3
      omega
    have ht := ih (a * 10 + (c.toNat - 48)) (fun x hx => hall x (by simp [hx]))
    simp only [List.foldl_cons, List.length_cons]
    calc List.foldl (fun a c => a * 10 + (c.toNat - 48)) (a * 10 + (c.toNat - 48)) t
        < (a * 10 + (c.toNat - 48) + 1) * 10 ^ t.length := ht
    _ ≤ (a + 1) * 10 ^ (t.length + 1) := by
        have : a * 10 + (c.toNat - 48) + 1 ≤ (a + 1) * 10 := by omega
        calc (a * 10 + (c.toNat - 48) + 1) * 10 ^ t.length
            ≤ ((a + 1) * 10) * 10 ^ t.length := Nat.mul_le_mul_right _ this
        _ = (a + 1) * 10 ^ (t.length + 1) := by ring

theorem daysInMonth_le (y mo : Nat) : daysInMonth y mo ≤ 31 := by
  unfold daysInMonth
  split
  · split <;> omega
  · split <;> omega

theorem length_pad2c (n : Nat) : (pad2c n).length = 2 := rfl

theorem length_pad4c (n : Nat) : (pad4c n).length = 4 := rfl

theorem parseDT_formatDT {dt : FechaHora} (h : ValidDT dt) : parseDT (formatDT dt) = some dt := by
  obtain ⟨h1, h2, h3, h4, h5, h6, h7, h8⟩ := h
  have hd31 : dt.dia ≤ 31 := le_trans h6 (daysInMonth_le _ _)
  have e1 := takeWhile_prefix_append (P := Char.isDigit) (pad4c dt.anio) '-'
    (pad2c dt.mes ++ '-' :: pad2c dt.dia ++ ' ' :: pad2c dt.hora ++ ':' :: pad2c dt.minuto)
    isDigit_pad4c rfl
  have e2 := takeWhile_prefix_append (P := Char.isDigit) (pad2c dt.mes) '-'
    (pad2c dt.dia ++ ' ' :: pad2c dt.hora ++ ':' :: pad2c dt.minuto) isDigit_pad2c rfl
  have e3 := takeWhile_prefix_append (P := Char.isDigit) (pad2c dt.dia) ' '
    (pad2c dt.hora ++ ':' :: pad2c dt.minuto) isDigit_pad2c rfl
  have e4 : List.takeWhile Char.isWhitespace (' ' :: pad2c dt.hora ++ ':' :: pad2c dt.minuto) = [' '] ∧
      List.dropWhile Char.isWhitespace (' ' :: pad2c dt.hora ++ ':' :: pad2c dt.minuto) =
        pad2c dt.hora ++ ':' :: pad2c dt.minuto := by
    have e := takeWhile_prefix_append (P := Char.isWhitespace) [' '] (digitChar (dt.hora / 10))
      (digitChar dt.hora :: ':' :: pad2c dt.minuto)
      (by intro x hx; simp at hx; subst hx; rfl) (isWs_digitChar _)
    simpa [pad2c] using e
  have e5 := takeWhile_prefix_append (P := Char.isDigit) (pad2c dt.hora) ':' (pad2c dt.minuto)
    isDigit_pad2c rfl
  have e6 := takeWhile_all (P := Char.isDigit) (pad2c dt.minuto) isDigit_pad2c
  have dv1 : digitsVal (pad4c dt.anio) = dt.anio := digitsVal_pad4c (by omega)
  have dv2 : digitsVal (pad2c dt.mes) = dt.mes := digitsVal_pad2c (by omega)
  have dv3 : digitsVal (pad2c dt.dia) = dt.dia := digitsVal_pad2c (by omega)
  have dv4 : digitsVal (pad2c dt.hora) = dt.hora := digitsVal_pad2c (by omega)
  have dv5 : digitsVal (pad2c dt.minuto) = dt.minuto := digitsVal_pad2c (by omega)
  unfold parseDT formatDT
  simp only [String.toList]
  simp only [List.cons_append, List.append_assoc] at e1 e2 e3 e4 e5 ⊢
  simp only [e1.1, e1.2, e2.1, e2.2, e3.1, e3.2, e4.1, e4.2, e5.1, e5.2, e6.1, e6.2,
    length_pad2c, length_pad4c, dv1, dv2, dv3, dv4, dv5]
  norm_num
  intro hcon
  exact absurd (hcon h1 h3 h4 h5 h6 h7) (by omega)

theorem parseDT_valid {s : String} {dt : FechaHora} (h : parseDT s = some dt) : ValidDT dt := by
  unfold parseDT at h
  dsimp only [] at h
  split at h
  · exact absurd h (by simp)
  next hy4 =>
    split at h
    case _ r2 =>
      split at h
      · exact absurd h (by simp)
      next hm2 =>
        split at h
        case _ r4 =>
          split at h
          · exact absurd h (by simp)
          next hd2 =>
            split at h
            · exact absurd h (by simp)
            next hws =>
              split at h
              · exact absurd h (by simp)
              next hh2 =>
                split at h
                case _ r8 =>
                  split at h
                  · exact absurd h (by simp)
                  next hmin2 =>
                    split at h
                    · exact absurd h (by simp)
                    next hr9 =>
                      split at h
                      case isTrue hcond =>
                        have hdt := Option.some.inj h
                        subst hdt
                        obtain ⟨c1, c2, c3, c4, c5, c6, c7⟩ := hcond
                        have hdig : ∀ x ∈ List.takeWhile Char.isDigit s.toList,
                            x.isDigit = true := fun x hx => List.mem_takeWhile_imp hx
                        have hlt := digitsVal_lt hdig
                        have hlen : (List.takeWhile Char.isDigit s.toList).length = 4 := by
                          omega
                        rw [hlen] at hlt
                        have hpow : (10 : Nat) ^ 4 = 10000 := by norm_num
                        have h9999 : digitsVal (List.takeWhile Char.isDigit s.toList) ≤ 9999 := by
                          omega
                        exact ⟨c1, h9999, c2, c3, c4, c5, c6, c7⟩
                      case isFalse => exact absurd h (by simp)
                case _ => exact absurd h (by simp)
        case _ => exact absurd h (by simp)
    case _ => exact absurd h (by simp)

theorem canonicalDT_formatDT {s : String} {dt : FechaHora} (h : parseDT s = some dt) :
    canonicalDT (formatDT dt) := by
  unfold canonicalDT
  rw [parseDT_formatDT (parseDT_valid h)]
  rfl

theorem canonicalDT_parse {s : String} (h : canonicalDT s) :
    ∃ dt, parseDT s = some dt ∧ formatDT dt = s := by
  unfold canonicalDT at h
  cases hp : parseDT s with
  | none => rw [hp] at h; simp at h
  | some dt =>
    rw [hp] at h
    exact ⟨dt, rfl, by simpa using h⟩

theorem insertLe_perm {α : Type} (le : α → α → Bool) (x : α) :
    ∀ l : List α, List.Perm (insertLe le x l) (x :: l) := by
  intro l
  induction l with
  | nil => simp [insertLe]
  | cons y ys ih =>
    unfold insertLe
    by_cases h : le x y = true
    · rw [if_pos h]
    · rw [if_neg h]
      exact (List.Perm.cons y ih).trans (List.Perm.swap x y ys)

theorem sortLe_perm {α : Type} (le : α → α → Bool) :
    ∀ l : List α, List.Perm (sortLe le l) l := by
  intro l
  induction l with
  | nil => simp [sortLe]
  | cons x xs ih =>
    unfold sortLe
    exact (insertLe_perm le x (sortLe le xs)).trans (List.Perm.cons x ih)

theorem pairwise_insertLe {α : Type} {le : α → α → Bool}
    (htot : ∀ a b, le a b = false → le b a = true)
    (htrans : ∀ a b c, le a b = true → le b c = true → le a c = true) (x : α) :
    ∀ {l : List α}, l.Pairwise (fun a b => le a b = true) →
      (insertLe le x l).Pairwise (fun a b => le a b = true) := by
  intro l
  induction l with
  | nil => intro _; simp [insertLe]
  | cons y ys ih =>
    intro hp
    rcases List.pairwise_cons.1 hp with ⟨hy, hys⟩
    unfold insertLe
    by_cases h : le x y = true
    · rw [if_pos h]
      refine List.pairwise_cons.2 ⟨?_, hp⟩
      intro b hb
      rcases List.mem_cons.1 hb with hbx | hb
      · rw [hbx]
        exact h
      · exact htrans x y b h (hy b hb)
    · rw [if_neg h]
      refine List.pairwise_cons.2 ⟨?_, ih hys⟩
      intro b hb
      have hmem := (insertLe_perm le x ys).mem_iff.1 hb
      rcases List.mem_cons.1 hmem with hbx | hb2
      · rw [hbx]
        exact htot x y (by simpa using h)
      · exact hy b hb2

theorem pairwise_sortLe {α : Type} {le : α → α → Bool}
    (htot : ∀ a b, le a b = false → le b a = true)
    (htrans : ∀ a b c, le a b = true → le b c = true → le a c = true) :
    ∀ l : List α, (sortLe le l).Pairwise (fun a b => le a b = true) := by
  intro l
  induction l with
  | nil => simp [sortLe]
  | cons x xs ih =>
    unfold sortLe
    exact pairwise_insertLe htot htrans x ih

theorem mkId_inj {a b : Nat} (h : mkId a = mkId b) : a = b := by
  unfold mkId at h
  have h2 : List.replicate (a + 1) 'u' = List.replicate (b + 1) 'u' :=
    congrArg String.data h
  have := congrArg List.length h2
  simpa using this

theorem isSome_lookup_append {α : Type} {l m : List (String × α)} {k : String}
    (h : (l.lookup k).isSome = true) : ((l ++ m).lookup k).isSome = true := by
  induction l with
  | nil => simp [List.lookup] at h
  | cons q t ih =>
    rcases eq_or_ne k q.1 with h1 | h1
    · rw [List.cons_append, lookup_cons_self h1]
      rfl
    · rw [lookup_cons_ne h1] at h
      rw [List.cons_append, lookup_cons_ne h1]
      exact ih h

theorem fresh_not_mem {g : GestorTurnos} (hwf : TurnosWF g) :
    g.turnos.any (·.1 == mkId g.nextId) = false := by
  by_contra hne
  have hmem : mkId g.nextId ∈ g.turnos.map Prod.fst :=
    any_key_iff.1 (by revert hne; cases g.turnos.any (·.1 == mkId g.nextId) <;> simp)
  rcases List.mem_map.1 hmem with ⟨p, hp, hk⟩
  rcases (hwf p hp).2.2.2.2 with hr
  rw [hk] at hr
  rcases List.mem_map.1 hr with ⟨n, hn, he⟩
  have : n = g.nextId := mkId_inj he
  rw [this] at hn
  exact absurd (List.mem_range.1 hn) (lt_irrefl _)

theorem registrar_err {g : GestorTurnos} {dni nombre telefono : String}
    (h : hasCliente g (pyStrip dni) = true) :
    registrar_cliente g dni nombre telefono = .error .duplicateClient := by
  unfold registrar_cliente
  rw [if_pos h]

theorem registrar_ok_eq {g : GestorTurnos} {dni : String} (nombre telefono : String)
    (h : hasCliente g (pyStrip dni) = false) :
    registrar_cliente g dni nombre telefono =
      .ok ({ g with clientes := g.clientes ++
              [(pyStrip dni, ⟨pyStrip dni, pyStrip nombre, pyStrip telefono⟩)] },
           ⟨pyStrip dni, pyStrip nombre, pyStrip telefono⟩) := by
  unfold registrar_cliente
  rw [if_neg (by simp [h])]
  have hd := dictSet_of_not_mem (l := g.clientes)
    (⟨pyStrip dni, pyStrip nombre, pyStrip telefono⟩ : Cliente)
    (by simpa [hasCliente] using h)
  simp only [hd]

theorem solicitar_unknown {g : GestorTurnos} {cliente_dni : String}
    (datetime_str servicio notas : String) (h : hasCliente g cliente_dni = false) :
    solicitar_turno g cliente_dni datetime_str servicio notas = .error .unknownClient := by
  unfold solicitar_turno
  rw [if_pos (by simp [h])]

theorem solicitar_badts {g : GestorTurnos} {cliente_dni datetime_str : String}
    (servicio notas : String) (h1 : hasCliente g cliente_dni = true)
    (h2 : parseDT datetime_str = none) :
    solicitar_turno g cliente_dni datetime_str servicio notas = .error .invalidTimestamp := by
  unfold solicitar_turno
  rw [if_neg (by simp [h1]), h2]

theorem solicitar_conflict {g : GestorTurnos} {cliente_dni datetime_str : String}
    {dt : FechaHora} (servicio notas : String) (h1 : hasCliente g cliente_dni = true)
    (h2 : parseDT datetime_str = some dt)
    (h3 : g.turnos.any
      (fun p => p.2.estado == "activo" && p.2.datetime_str == formatDT dt) = true) :
    solicitar_turno g cliente_dni datetime_str servicio notas = .error .slotConflict := by
  unfold solicitar_turno
  rw [if_neg (by simp [h1]), h2]
  simp only [h3, if_true]

theorem solicitar_ok_eq {g : GestorTurnos} {cliente_dni datetime_str : String}
    {dt : FechaHora} (servicio notas : String) (h1 : hasCliente g cliente_dni = true)
    (h2 : parseDT datetime_str = some dt)
    (h3 : g.turnos.any
      (fun p => p.2.estado == "activo" && p.2.datetime_str == formatDT dt) = false) :
    solicitar_turno g cliente_dni datetime_str servicio notas =
      .ok ({ g with
              turnos := dictSet (mkId g.nextId)
                ⟨mkId g.nextId, cliente_dni, formatDT dt, pyStrip servicio,
                  "activo", pyStrip notas⟩ g.turnos,
              nextId := g.nextId + 1 },
           ⟨mkId g.nextId, cliente_dni, formatDT dt, pyStrip servicio,
             "activo", pyStrip notas⟩) := by
  unfold solicitar_turno
  rw [if_neg (by simp [h1]), h2]
  simp only [h3]
  rfl

theorem cancelar_err {g : GestorTurnos} {turno_id : String}
    (h : g.turnos.lookup turno_id = none) :
    cancelar_turno g turno_id = .error .notFound := by
  unfold cancelar_turno
  rw [h]

theorem cancelar_ok_eq {g : GestorTurnos} {turno_id : String} {t : Turno}
    (h : g.turnos.lookup turno_id = some t) :
    cancelar_turno g turno_id =
      .ok ({ g with turnos := dictSet turno_id { t with estado := "cancelado" } g.turnos },
           { t with estado := "cancelado" }) := by
  unfold cancelar_turno
  rw [h]

theorem marcar_err {g : GestorTurnos} {turno_id : String}
    (h : g.turnos.lookup turno_id = none) :
    marcar_realizado g turno_id = .error .notFound := by
  unfold marcar_realizado
  rw [h]

theorem marcar_ok_eq {g : GestorTurnos} {turno_id : String} {t : Turno}
    (h : g.turnos.lookup turno_id = some t) :
    marcar_realizado g turno_id =
      .ok ({ g with turnos := dictSet turno_id { t with estado := "realizado" } g.turnos },
           { t with estado := "realizado" }) := by
  unfold marcar_realizado
  rw [h]

theorem modificar_ok_cases {g : GestorTurnos} {turno_id : String}
    {ndt nsv nnt : Option String} {g1 : GestorTurnos} {t3 : Turno}
    (h : modificar_turno g turno_id ndt nsv nnt = .ok (g1, t3)) :
    ∃ t, g.turnos.lookup turno_id = some t ∧
      g1 = { g with turnos := dictSet turno_id t3 g.turnos } ∧
      t3.id = t.id ∧ t3.estado = t.estado ∧ t3.cliente_dni = t.cliente_dni ∧
      (t3.datetime_str = t.datetime_str ∨
        ∃ dt, parseDT (ndt.getD "") = some dt ∧ t3.datetime_str = formatDT dt ∧
          g.turnos.any (fun p => p.2.id != t.id && p.2.estado == "activo" &&
            p.2.datetime_str == formatDT dt) = false) := by
  unfold modificar_turno at h
  cases hl : g.turnos.lookup turno_id with
  | none => rw [hl] at h; exact absurd h (by simp)
  | some t =>
    rw [hl] at h
    dsimp only [] at h
    refine ⟨t, rfl, ?_⟩
    cases ndt with
    | none =>
      simp only [Except.map] at h
      obtain ⟨hga, htb⟩ := Prod.mk.inj (Except.ok.inj h)
      constructor
      · rw [← hga, ← htb]
      refine ⟨?_, ?_, ?_, Or.inl ?_⟩ <;>
        (rw [← htb]; cases nsv <;> cases nnt <;> rfl)
    | some s =>
      by_cases hs : s = ""
      · simp only [hs, beq_self_eq_true, if_true, Except.map] at h
        obtain ⟨hga, htb⟩ := Prod.mk.inj (Except.ok.inj h)
        constructor
        · rw [← hga, ← htb]
        refine ⟨?_, ?_, ?_, Or.inl ?_⟩ <;>
          (rw [← htb]; cases nsv <;> cases nnt <;> rfl)
      · dsimp only [] at h
        rw [if_neg (by simpa using hs)] at h
        cases hp : parseDT s with
        | none => rw [hp] at h; exact absurd h (by simp [Except.map])
        | some dt =>
          rw [hp] at h
          dsimp only [] at h
          cases hg : g.turnos.any (fun p => p.2.id != t.id && p.2.estado == "activo" &&
              p.2.datetime_str == formatDT dt) with
          | true => rw [hg] at h; exact absurd h (by simp [Except.map])
          | false =>
            rw [hg] at h
            simp only [Bool.false_eq_true, if_false, Except.map] at h
            obtain ⟨hga, htb⟩ := Prod.mk.inj (Except.ok.inj h)
            constructor
            · rw [← hga, ← htb]
            refine ⟨?_, ?_, ?_, Or.inr ⟨dt, by simpa using hp, ?_, hg⟩⟩ <;>
              (rw [← htb]; cases nsv <;> cases nnt <;> rfl)

theorem modificar_notFound {g : GestorTurnos} {turno_id : String}
    (ndt nsv nnt : Option String) (h : g.turnos.lookup turno_id = none) :
    modificar_turno g turno_id ndt nsv nnt = .error .notFound := by
  unfold modificar_turno
  rw [h]

theorem modificar_conflict {g : GestorTurnos} {turno_id s : String} {t : Turno}
    {dt : FechaHora} (nsv nnt : Option String)
    (hl : g.turnos.lookup turno_id = some t) (hs : s ≠ "")
    (hp : parseDT s = some dt)
    (hg : g.turnos.any (fun p => p.2.id != t.id && p.2.estado == "activo" &&
      p.2.datetime_str == formatDT dt) = true) :
    modificar_turno g turno_id (some s) nsv nnt = .error .slotConflict := by
  unfold modificar_turno
  rw [hl]
  dsimp only []
  rw [if_neg (by simpa using hs), hp]
  dsimp only []
  rw [hg]
  rfl

theorem inv_registrar (g : GestorTurnos) (dni nombre telefono : String)
    (hInv : Invariante g) :
    Invariante (applyOp g (Op.registrar dni nombre telefono)) := by
  obtain ⟨hc, ht, ha, hcw, htw⟩ := hInv
  unfold applyOp
  dsimp only []
  cases hr : registrar_cliente g dni nombre telefono with
  | error e =>
    dsimp only []
    exact ⟨hc, ht, ha, hcw, htw⟩
  | ok res =>
    obtain ⟨g1, c⟩ := res
    dsimp only []
    by_cases hdup : hasCliente g (pyStrip dni) = true
    · rw [registrar_err hdup] at hr
      exact absurd hr (by simp)
    · have hdup2 : hasCliente g (pyStrip dni) = false := by
        revert hdup; cases hasCliente g (pyStrip dni) <;> simp
      rw [registrar_ok_eq nombre telefono hdup2] at hr
      obtain ⟨hg1, hcres⟩ := Prod.mk.inj (Except.ok.inj hr)
      rw [← hg1]
      have hdnotin : pyStrip dni ∉ g.clientes.map Prod.fst := by
        intro hmem
        rw [← any_key_iff (l := g.clientes)] at hmem
        rw [hasCliente] at hdup2
        rw [hmem] at hdup2
        exact absurd hdup2 (by simp)
      refine ⟨?_, ht, ha, ?_, ?_⟩
      · simp only [List.map_append, List.map_cons, List.map_nil]
        rw [List.nodup_append]
        exact ⟨hc, List.nodup_singleton _, by simpa using hdnotin⟩
      · intro p hp
        rcases List.mem_append.1 hp with hp | hp
        · exact hcw p hp
        · have hpe : p = (pyStrip dni,
              ⟨pyStrip dni, pyStrip nombre, pyStrip telefono⟩) := by simpa using hp
          rw [hpe]
          exact ⟨pyStrip_pyStrip dni, rfl, pyStrip_pyStrip nombre, pyStrip_pyStrip telefono⟩
      · intro p hp
        obtain ⟨h1, h2, h3, h4, h5⟩ := htw p hp
        exact ⟨h1, h2, h3, isSome_lookup_append h4, h5⟩

theorem inv_cancelar (g : GestorTurnos) (turno_id : String) (hInv : Invariante g) :
    Invariante (applyOp g (Op.cancelar turno_id)) := by
  obtain ⟨hc, ht, ha, hcw, htw⟩ := hInv
  unfold applyOp
  dsimp only []
  cases hr : cancelar_turno g turno_id with
  | error e =>
    dsimp only []
    exact ⟨hc, ht, ha, hcw, htw⟩
  | ok res =>
    obtain ⟨g1, t1⟩ := res
    dsimp only []
    cases hl : g.turnos.lookup turno_id with
    | none =>
      rw [cancelar_err hl] at hr
      exact absurd hr (by simp)
    | some t =>
      rw [cancelar_ok_eq hl] at hr
      obtain ⟨hg1, htres⟩ := Prod.mk.inj (Except.ok.inj hr)
      rw [← hg1]
      have hany : g.turnos.any (·.1 == turno_id) = true :=
        lookup_isSome_iff_any.1 (by rw [hl]; rfl)
      refine ⟨hc, ?_, ?_, hcw, ?_⟩
      · rw [map_fst_dictSet_of_mem _ hany]
        exact ht
      · intro p hp q hq hpa hqa hpq
        rcases mem_dictSet_nodup ht hp with hp1 | ⟨hp1, hpk⟩ <;>
          rcases mem_dictSet_nodup ht hq with hq1 | ⟨hq1, hqk⟩
        · rw [hp1, hq1]
        · rw [hp1] at hpa
          exact absurd hpa (by simp)
        · rw [hq1] at hqa
          exact absurd hqa (by simp)
        · exact ha p hp1 q hq1 hpa hqa hpq
      · intro p hp
        rcases mem_dictSet_nodup ht hp with hp1 | ⟨hp1, hpk⟩
        · obtain ⟨h1, h2, h3, h4, h5⟩ := htw (turno_id, t) (lookup_mem hl)
          rw [hp1]
          exact ⟨h1, h2, h3, h4, h5⟩
        · obtain ⟨h1, h2, h3, h4, h5⟩ := htw p hp1
          exact ⟨h1, h2, h3, h4, h5⟩

theorem inv_marcar (g : GestorTurnos) (turno_id : String) (hInv : Invariante g) :
    Invariante (applyOp g (Op.marcar turno_id)) := by
  obtain ⟨hc, ht, ha, hcw, htw⟩ := hInv
  unfold applyOp
  dsimp only []
  cases hr : marcar_realizado g turno_id with
  | error e =>
    dsimp only []
    exact ⟨hc, ht, ha, hcw, htw⟩
  | ok res =>
    obtain ⟨g1, t1⟩ := res
    dsimp only []
    cases hl : g.turnos.lookup turno_id with
    | none =>
      rw [marcar_err hl] at hr
      exact absurd hr (by simp)
    | some t =>
      rw [marcar_ok_eq hl] at hr
      obtain ⟨hg1, htres⟩ := Prod.mk.inj (Except.ok.inj hr)
      rw [← hg1]
      have hany : g.turnos.any (·.1 == turno_id) = true :=
        lookup_isSome_iff_any.1 (by rw [hl]; rfl)
      refine ⟨hc, ?_, ?_, hcw, ?_⟩
      · rw [map_fst_dictSet_of_mem _ hany]
        exact ht
      · intro p hp q hq hpa hqa hpq
        rcases mem_dictSet_nodup ht hp with hp1 | ⟨hp1, hpk⟩ <;>
          rcases mem_dictSet_nodup ht hq with hq1 | ⟨hq1, hqk⟩
        · rw [hp1, hq1]
        · rw [hp1] at hpa
          exact absurd hpa (by simp)
        · rw [hq1] at hqa
          exact absurd hqa (by simp)
        · exact ha p hp1 q hq1 hpa hqa hpq
      · intro p hp
        rcases mem_dictSet_nodup ht hp with hp1 | ⟨hp1, hpk⟩
        · obtain ⟨h1, h2, h3, h4, h5⟩ := htw (turno_id, t) (lookup_mem hl)
          rw [hp1]
          exact ⟨h1, h2, h3, h4, h5⟩
        · obtain ⟨h1, h2, h3, h4, h5⟩ := htw p hp1
          exact ⟨h1, h2, h3, h4, h5⟩

theorem inv_solicitar (g : GestorTurnos) (cliente_dni datetime_str servicio notas : String)
    (hInv : Invariante g) :
    Invariante (applyOp g (Op.solicitar cliente_dni datetime_str servicio notas)) := by
  obtain ⟨hc, ht, ha, hcw, htw⟩ := hInv
  unfold applyOp
  dsimp only []
  cases hr : solicitar_turno g cliente_dni datetime_str servicio notas with
  | error e =>
    dsimp only []
    exact ⟨hc, ht, ha, hcw, htw⟩
  | ok res =>
    obtain ⟨g1, t1⟩ := res
    dsimp only []
    by_cases hcli : hasCliente g cliente_dni = true
    case neg =>
      rw [solicitar_unknown datetime_str servicio notas
        (by revert hcli; cases hasCliente g cliente_dni <;> simp)] at hr
      exact absurd hr (by simp)
    case pos =>
      cases hp : parseDT datetime_str with
      | none =>
        rw [solicitar_badts servicio notas hcli hp] at hr
        exact absurd hr (by simp)
      | some dt =>
        cases hguard : g.turnos.any
            (fun p => p.2.estado == "activo" && p.2.datetime_str == formatDT dt) with
        | true =>
          rw [solicitar_conflict servicio notas hcli hp hguard] at hr
          exact absurd hr (by simp)
        | false =>
          rw [solicitar_ok_eq servicio notas hcli hp hguard] at hr
          obtain ⟨hg1, ht1⟩ := Prod.mk.inj (Except.ok.inj hr)
          rw [← hg1]
          have hfresh := fresh_not_mem htw
          have hset := dictSet_of_not_mem (l := g.turnos)
            (⟨mkId g.nextId, cliente_dni, formatDT dt, pyStrip servicio,
              "activo", pyStrip notas⟩ : Turno) hfresh
          simp only [hset]
          have hnotin : mkId g.nextId ∉ g.turnos.map Prod.fst := by
            intro hmem
            rw [← any_key_iff (l := g.turnos)] at hmem
            rw [hmem] at hfresh
            exact absurd hfresh (by simp)
          refine ⟨hc, ?_, ?_, hcw, ?_⟩
          · simp only [List.map_append, List.map_cons, List.map_nil]
            rw [List.nodup_append]
            exact ⟨ht, List.nodup_singleton _, by simpa using hnotin⟩
          · intro p hp q hq hpa hqa hpq
            rcases List.mem_append.1 hp with hp1 | hp1 <;>
              rcases List.mem_append.1 hq with hq1 | hq1
            · exact ha p hp1 q hq1 hpa hqa hpq
            · exfalso
              have hqe : q = (mkId g.nextId,
                  ⟨mkId g.nextId, cliente_dni, formatDT dt, pyStrip servicio,
                    "activo", pyStrip notas⟩) := by simpa using hq1
              have : g.turnos.any
                  (fun p => p.2.estado == "activo" && p.2.datetime_str == formatDT dt) = true := by
                apply List.any_eq_true.2
                refine ⟨p, hp1, ?_⟩
                have hdts : p.2.datetime_str = formatDT dt := by
                  rw [hpq, hqe]
                simp [hpa, hdts]
              rw [this] at hguard
              exact absurd hguard (by simp)
            · exfalso
              have hpe : p = (mkId g.nextId,
                  ⟨mkId g.nextId, cliente_dni, formatDT dt, pyStrip servicio,
                    "activo", pyStrip notas⟩) := by simpa using hp1
              have : g.turnos.any
                  (fun p => p.2.estado == "activo" && p.2.datetime_str == formatDT dt) = true := by
                apply List.any_eq_true.2
                refine ⟨q, hq1, ?_⟩
                have hdts : q.2.datetime_str = formatDT dt := by
                  rw [← hpq, hpe]
                simp [hqa, hdts]
              rw [this] at hguard
              exact absurd hguard (by simp)
            · have hpe : p = (mkId g.nextId,
                  ⟨mkId g.nextId, cliente_dni, formatDT dt, pyStrip servicio,
                    "activo", pyStrip notas⟩) := by simpa using hp1
              have hqe : q = (mkId g.nextId,
                  ⟨mkId g.nextId, cliente_dni, formatDT dt, pyStrip servicio,
                    "activo", pyStrip notas⟩) := by simpa using hq1
              rw [hpe, hqe]
          · intro p hpm
            dsimp only [] at hpm ⊢
            rcases List.mem_append.1 hpm with hp1 | hp1
            · obtain ⟨h1, h2, h3, h4, h5⟩ := htw p hp1
              refine ⟨h1, h2, h3, h4, ?_⟩
              rcases List.mem_map.1 h5 with ⟨m, hm, hme⟩
              exact List.mem_map.2 ⟨m, List.mem_range.2 (by
                have := List.mem_range.1 hm
                omega), hme⟩
            · have hpe : p = (mkId g.nextId,
                  ⟨mkId g.nextId, cliente_dni, formatDT dt, pyStrip servicio,
                    "activo", pyStrip notas⟩) := by simpa using hp1
              rw [hpe]
              have hmemc : cliente_dni ∈ g.clientes.map Prod.fst :=
                any_key_iff.1 (by simpa [hasCliente] using hcli)
              rcases List.mem_map.1 hmemc with ⟨pc, hpc, hk⟩
              refine ⟨rfl, ?_, canonicalDT_formatDT hp, ?_, ?_⟩
              · rw [← hk]
                exact (hcw pc hpc).1
              · exact lookup_isSome_iff_any.2 (by simpa [hasCliente] using hcli)
              · exact List.mem_map.2 ⟨g.nextId, List.mem_range.2 (by omega), rfl⟩

theorem inv_modificar (g : GestorTurnos) (turno_id : String) (ndt nsv nnt : Option String)
    (hInv : Invariante g) : Invariante (applyOp g (Op.modificar turno_id ndt nsv nnt)) := by
  obtain ⟨hc, ht, ha, hcw, htw⟩ := hInv
  unfold applyOp
  dsimp only []
  cases hr : modificar_turno g turno_id ndt nsv nnt with
  | error e =>
    dsimp only []
    exact ⟨hc, ht, ha, hcw, htw⟩
  | ok res =>
    obtain ⟨g1, t3⟩ := res
    dsimp only []
    obtain ⟨t, hl, hg1, hid, hest, hdni, hdts⟩ := modificar_ok_cases hr
    rw [hg1]
    have htmem := lookup_mem hl
    obtain ⟨ht_id, ht_dni, ht_canon, ht_look, ht_fresh⟩ := htw (turno_id, t) htmem
    have hany : g.turnos.any (·.1 == turno_id) = true :=
      lookup_isSome_iff_any.1 (by rw [hl]; rfl)
    refine ⟨hc, ?_, ?_, hcw, ?_⟩
    · rw [map_fst_dictSet_of_mem _ hany]
      exact ht
    · intro p hp q hq hpa hqa hpq
      rcases mem_dictSet_nodup ht hp with hp1 | ⟨hp1, hpk⟩ <;>
        rcases mem_dictSet_nodup ht hq with hq1 | ⟨hq1, hqk⟩
      · rw [hp1, hq1]
      · exfalso
        rw [hp1] at hpa hpq
        rcases hdts with hsame | ⟨dt, hpdt, hfd, hguard⟩
        · have hres := ha (turno_id, t) htmem q hq1
            (by dsimp only []; rw [← hest]; exact hpa) hqa
            (by dsimp only []; rw [← hsame]; exact hpq)
          exact hqk hres.symm
        · have hq_id : q.2.id = q.1 := (htw q hq1).1
          have hwit : g.turnos.any (fun p => p.2.id != t.id && p.2.estado == "activo" &&
              p.2.datetime_str == formatDT dt) = true := by
            apply List.any_eq_true.2
            refine ⟨q, hq1, ?_⟩
            have h1 : q.2.id ≠ t.id := by
              rw [hq_id, ht_id]
              exact hqk
            have h2 : q.2.datetime_str = formatDT dt := by
              rw [← hpq, hfd]
            simp [h1, hqa, h2]
          rw [hwit] at hguard
          exact absurd hguard (by simp)
      · exfalso
        rw [hq1] at hqa hpq
        rcases hdts with hsame | ⟨dt, hpdt, hfd, hguard⟩
        · have hres := ha p hp1 (turno_id, t) htmem hpa
            (by dsimp only []; rw [← hest]; exact hqa)
            (by dsimp only []; rw [← hsame]; exact hpq)
          exact hpk hres
        · have hp_id : p.2.id = p.1 := (htw p hp1).1
          have hwit : g.turnos.any (fun q => q.2.id != t.id && q.2.estado == "activo" &&
              q.2.datetime_str == formatDT dt) = true := by
            apply List.any_eq_true.2
            refine ⟨p, hp1, ?_⟩
            have h1 : p.2.id ≠ t.id := by
              rw [hp_id, ht_id]
              exact hpk
            have h2 : p.2.datetime_str = formatDT dt := by
              rw [hpq, hfd]
            simp [h1, hpa, h2]
          rw [hwit] at hguard
          exact absurd hguard (by simp)
      · exact ha p hp1 q hq1 hpa hqa hpq
    · intro p hp
      rcases mem_dictSet_nodup ht hp with hp1 | ⟨hp1, hpne⟩
      · rw [hp1]
        refine ⟨?_, ?_, ?_, ?_, ht_fresh⟩
        · dsimp only []
          rw [hid, ht_id]
        · dsimp only []
          rw [hdni]
          exact ht_dni
        · dsimp only []
          rcases hdts with hsame | ⟨dt, hpdt, hfd, _⟩
          · rw [hsame]
            exact ht_canon
          · rw [hfd]
            exact canonicalDT_formatDT hpdt
        · dsimp only []
          rw [hdni]
          exact ht_look
      · exact htw p hp1

theorem inv_applyOp (g : GestorTurnos) (op : Op) (hInv : Invariante g) :
    Invariante (applyOp g op) := by
  cases op with
  | registrar dni nombre telefono => exact inv_registrar g dni nombre telefono hInv
  | solicitar a b c d => exact inv_solicitar g a b c d hInv
  | modificar a b c d => exact inv_modificar g a b c d hInv
  | cancelar a => exact inv_cancelar g a hInv
  | marcar a => exact inv_marcar g a hInv

theorem inv_empty : Invariante emptyGestor := by
  refine ⟨?_, ?_, ?_, ?_, ?_⟩ <;>
    simp [emptyGestor, ActivosUnicos, ClientesWF, TurnosWF]

theorem inv_foldl : ∀ (ops : List Op) (g : GestorTurnos), Invariante g →
    Invariante (ops.foldl applyOp g) := by
  intro ops
  induction ops with
  | nil => intro g hg; exact hg
  | cons op rest ih =>
    intro g hg
    exact ih (applyOp g op) (inv_applyOp g op hg)

theorem inv_run (ops : List Op) : Invariante (run ops) :=
  inv_foldl ops emptyGestor inv_empty

theorem cliente_from_to (c : Cliente) : Cliente.from_dict c.to_dict = c := rfl

theorem turno_from_to (t : Turno) : Turno.from_dict t.to_dict = t := rfl

/-- C5: serializing any manager state to the structured snapshot with
`dump_to_dict` and loading that snapshot into an empty manager with
`load_from_dict` reproduces a client map and an appointment map equal
field-for-field to the original. -/
theorem C5_dict_roundtrip (g : GestorTurnos) :
    load_from_dict (dump_to_dict g) = (g.clientes, g.turnos) := by
  unfold load_from_dict dump_to_dict
  simp [List.map_map, Function.comp_def, cliente_from_to, turno_from_to]

/-- C4: over every operation sequence from the empty manager no two stored
clients share an id; `registrar_cliente` on an id already present after
trimming always raises `DuplicateClient` and leaves the state unchanged, and
on a fresh id succeeds and appends exactly that client with every field
trimmed. -/
theorem C4_register_unique (ops : List Op) (g : GestorTurnos)
    (dni nombre telefono : String) :
    ((run ops).clientes.map Prod.fst).Nodup ∧
    (hasCliente g (pyStrip dni) = true →
      registrar_cliente g dni nombre telefono = .error .duplicateClient ∧
      applyOp g (Op.registrar dni nombre telefono) = g) ∧
    (hasCliente g (pyStrip dni) = false →
      registrar_cliente g dni nombre telefono =
        .ok ({ g with clientes := g.clientes ++ [(pyStrip dni,
            ⟨pyStrip dni, pyStrip nombre, pyStrip telefono⟩)] },
          ⟨pyStrip dni, pyStrip nombre, pyStrip telefono⟩)) := by
  refine ⟨(inv_run ops).1, fun h => ⟨registrar_err h, ?_⟩,
    fun h => registrar_ok_eq nombre telefono h⟩
  unfold applyOp
  dsimp only []
  rw [registrar_err h]

theorem C4_register_unique_witness :
    ((run opsA).clientes.map Prod.fst).Nodup ∧
    (registrar_cliente (run opsA) " 111 " "Bob" "" = .error .duplicateClient ∧
      applyOp (run opsA) (Op.registrar " 111 " "Bob" "") = run opsA) ∧
    registrar_cliente (run opsA) "222" " Carla " " 5 " =
      .ok (⟨[("111", ⟨"111", "Ana Gomez", ""⟩), ("222", ⟨"222", "Carla", "5"⟩)],
            [(mkId 0, ⟨mkId 0, "111", "2024-03-01 10:00", "Cut", "activo", ""⟩)], 1⟩,
        ⟨"222", "Carla", "5"⟩) :=
  ⟨(C4_register_unique opsA (run opsA) " 111 " "Bob" "").1,
   (C4_register_unique opsA (run opsA) " 111 " "Bob" "").2.1 (by decide),
   (C4_register_unique opsA (run opsA) "222" " Carla " " 5 ").2.2 (by decide)⟩

/-- C9: `modificar_turno` treats its optional arguments asymmetrically: on any
stored appointment, passing the empty string as the new timestamp leaves
`datetime_str` unchanged (the empty string counts as unset), while passing the
empty string as the new service or the new notes overwrites that field with
the empty string. -/
theorem C9_modify_asymmetry (g : GestorTurnos) (turno_id : String) (t : Turno)
    (h : g.turnos.lookup turno_id = some t) :
    modificar_turno g turno_id (some "") (some "") (some "") =
      .ok ({ g with turnos := dictSet turno_id { t with servicio := "", notas := "" } g.turnos },
        { t with servicio := "", notas := "" }) := by
  unfold modificar_turno
  rw [h]
  dsimp only []
  rfl

theorem C9_modify_asymmetry_witness :
    modificar_turno (run opsA) (mkId 0) (some "") (some "") (some "") =
      .ok (⟨[("111", ⟨"111", "Ana Gomez", ""⟩)],
            [(mkId 0, ⟨mkId 0, "111", "2024-03-01 10:00", "", "activo", ""⟩)], 1⟩,
        ⟨mkId 0, "111", "2024-03-01 10:00", "", "activo", ""⟩) :=
  C9_modify_asymmetry (run opsA) (mkId 0)
    ⟨mkId 0, "111", "2024-03-01 10:00", "Cut", "activo", ""⟩ (by decide)

/-- C10: `solicitar_turno` does not trim its client id argument: in any state
satisfying the maintained invariant, if a client is stored under a (trimmed)
id, then booking with any string that strips to that id but differs from it
(that is, the id padded with surrounding whitespace) raises `UnknownClient`
and leaves the state unchanged. -/
theorem C10_untrimmed_dni (g : GestorTurnos) (d p datetime_str servicio notas : String)
    (hInv : Invariante g) (_hreg : hasCliente g d = true)
    (hstrip : pyStrip p = d) (hne : p ≠ d) :
    solicitar_turno g p datetime_str servicio notas = .error .unknownClient ∧
    applyOp g (Op.solicitar p datetime_str servicio notas) = g := by
  have hnc : hasCliente g p = false := by
    cases hv : hasCliente g p
    · rfl
    · exfalso
      have hmem : p ∈ g.clientes.map Prod.fst :=
        any_key_iff.1 (by simpa [hasCliente] using hv)
      rcases List.mem_map.1 hmem with ⟨q, hq, hk⟩
      have hqs := (hInv.2.2.2.1 q hq).1
      rw [hk] at hqs
      exact hne (hqs.symm.trans hstrip)
  refine ⟨solicitar_unknown datetime_str servicio notas hnc, ?_⟩
  unfold applyOp
  dsimp only []
  rw [solicitar_unknown datetime_str servicio notas hnc]

theorem C10_untrimmed_dni_witness :
    solicitar_turno (run opsA) " 111" "2024-03-01 12:00" "Cut" "" =
      .error .unknownClient ∧
    applyOp (run opsA) (Op.solicitar " 111" "2024-03-01 12:00" "Cut" "") = run opsA :=
  C10_untrimmed_dni (run opsA) "111" " 111" "2024-03-01 12:00" "Cut" ""
    (by decide) (by decide) (by decide) (by decide)

/-- C8: `load_from_csv` does not skip a malformed row and continue: the first
malformed row (here a single-cell row, whose missing `cliente_dni` makes
`.strip()` raise on `None`) aborts the whole load, so a well-formed row after
it is never loaded, even though the same well-formed row loads fine on its
own.  This contradicts the spec, which asks for malformed rows to be skipped
individually with a warning. -/
theorem C8_csv_abort :
    load_from_csv [rowBad, rowGood] = (⟨[], []⟩, false) ∧
    load_from_csv [rowGood] =
      (⟨[("111", ⟨"111", "Ana", "5551"⟩)],
        [("id1", ⟨"id1", "111", some "2024-03-01 10:00", some "Cut",
          some "activo", some ""⟩)]⟩, true) := by
  constructor
  · rfl
  · rfl

theorem listarLoop_nofecha (fdni ffecha festado : Option String)
    (hff : pyTruthy ffecha = false) :
    ∀ ts : List Turno, listarLoop fdni ffecha festado ts =
      .ok (ts.filter
        (fun t => passesStr festado t.estado && passesStr fdni t.cliente_dni)) := by
  intro ts
  induction ts with
  | nil => rfl
  | cons t ts ih =>
    cases h1 : passesStr festado t.estado with
    | false => simp [listarLoop, h1, ih, List.filter_cons]
    | true =>
      cases h2 : passesStr fdni t.cliente_dni with
      | false => simp [listarLoop, h1, h2, ih, List.filter_cons]
      | true => simp [listarLoop, h1, h2, hff, ih, List.filter_cons, Except.map]

theorem listarLoop_fecha_err (fdni festado : Option String) (f : String)
    (hf : f ≠ "") (hbad : parseFecha f = none) :
    ∀ ts : List Turno,
      (∃ t ∈ ts, passesStr festado t.estado = true ∧ passesStr fdni t.cliente_dni = true) →
      listarLoop fdni (some f) festado ts = .error .invalidDate := by
  intro ts
  induction ts with
  | nil => intro h; simp at h
  | cons t ts ih =>
    intro h
    cases h1 : passesStr festado t.estado with
    | false =>
      have hrest : ∃ u ∈ ts, passesStr festado u.estado = true ∧
          passesStr fdni u.cliente_dni = true := by
        rcases h with ⟨u, hu, hu1, hu2⟩
        rcases List.mem_cons.1 hu with he | hu
        · rw [he, h1] at hu1
          cases hu1
        · exact ⟨u, hu, hu1, hu2⟩
      simp [listarLoop, h1, ih hrest]
    | true =>
      cases h2 : passesStr fdni t.cliente_dni with
      | false =>
        have hrest : ∃ u ∈ ts, passesStr festado u.estado = true ∧
            passesStr fdni u.cliente_dni = true := by
          rcases h with ⟨u, hu, hu1, hu2⟩
          rcases List.mem_cons.1 hu with he | hu
          · rw [he, h2] at hu2
            cases hu2
          · exact ⟨u, hu, hu1, hu2⟩
        simp [listarLoop, h1, h2, ih hrest]
      | true =>
        have hft : pyTruthy (some f) = true := by
          simp [pyTruthy]
          exact hf
        simp [listarLoop, h1, h2, hft, hbad]

theorem listarLoop_fecha_nopass (fdni festado : Option String) (f : String) :
    ∀ ts : List Turno,
      (∀ t ∈ ts, ¬(passesStr festado t.estado = true ∧
        passesStr fdni t.cliente_dni = true)) →
      listarLoop fdni (some f) festado ts = .ok [] := by
  intro ts
  induction ts with
  | nil => intro _; rfl
  | cons t ts ih =>
    intro h
    have hrest := fun u hu => h u (List.mem_cons_of_mem t hu)
    have hhead := h t (List.mem_cons_self t ts)
    cases h1 : passesStr festado t.estado with
    | false => simp [listarLoop, h1, ih hrest]
    | true =>
      cases h2 : passesStr fdni t.cliente_dni with
      | false => simp [listarLoop, h1, h2, ih hrest]
      | true => exact absurd ⟨h1, h2⟩ hhead

/-- C3 (amended): with a date-filter string that cannot be parsed as
`YYYY-MM-DD`, `listar_turnos` fails with `InvalidDate` exactly when the filter
string is truthy (nonempty) and at least one stored appointment passes the
status and client filters; the empty string behaves as no filter, and with no
passing appointment the unparsable filter is never parsed and the call
returns the empty list instead of failing. -/
theorem C3_invalid_date_amended (g : GestorTurnos) (fdni festado : Option String)
    (f : String) (hbad : parseFecha f = none) :
    (listar_turnos g fdni (some f) festado = .error .invalidDate ↔
      f ≠ "" ∧ ∃ t ∈ g.turnos.map (·.2), passesStr festado t.estado = true ∧
        passesStr fdni t.cliente_dni = true) := by
  constructor
  · intro h
    by_cases hf : f = ""
    · exfalso
      have hloop := listarLoop_nofecha fdni (some f) festado
        (by simp [pyTruthy, hf]) (g.turnos.map (·.2))
      unfold listar_turnos at h
      rw [hloop] at h
      dsimp only [] at h
      cases hd : decorate ((g.turnos.map (·.2)).filter
          (fun t => passesStr festado t.estado && passesStr fdni t.cliente_dni)) with
      | none =>
        rw [hd] at h
        exact absurd (Except.error.inj h) (by simp)
      | some ps =>
        rw [hd] at h
        exact Except.noConfusion h
    · refine ⟨hf, ?_⟩
      by_contra hno
      have hall : ∀ t ∈ g.turnos.map (·.2), ¬(passesStr festado t.estado = true ∧
          passesStr fdni t.cliente_dni = true) := by
        intro t ht hcon
        exact hno ⟨t, ht, hcon⟩
      have hloop := listarLoop_fecha_nopass fdni festado f (g.turnos.map (·.2)) hall
      unfold listar_turnos at h
      rw [hloop] at h
      dsimp only [] at h
      exact Except.noConfusion h
  · rintro ⟨hf, hex⟩
    have hloop := listarLoop_fecha_err fdni festado f hf hbad (g.turnos.map (·.2)) hex
    unfold listar_turnos
    rw [hloop]

theorem C3_invalid_date_amended_witness :
    listar_turnos (run opsA) none (some "banana") none = .error .invalidDate ↔
      "banana" ≠ "" ∧ ∃ t ∈ (run opsA).turnos.map (·.2),
        passesStr none t.estado = true ∧ passesStr none t.cliente_dni = true :=
  C3_invalid_date_amended (run opsA) none none "banana" (by decide)

/-- C3 (counterexample to the claim as stated): on the empty manager the
unparsable date filter string is never parsed, because the parse happens
inside the per-appointment loop, so `listar_turnos` returns the empty list
instead of failing with `InvalidDate`. -/
theorem C3_invalid_date_cex :
    parseFecha "banana" = none ∧
    listar_turnos emptyGestor none (some "banana") none = .ok [] ∧
    listar_turnos emptyGestor none (some "banana") none ≠ .error .invalidDate := by
  refine ⟨rfl, rfl, ?_⟩
  intro h
  rw [show listar_turnos emptyGestor none (some "banana") none = .ok [] from rfl] at h
  exact Except.noConfusion h

/-- C2 (amended): the status of a Cancelled or Completed appointment is never
changed by any operation other than `cancelar_turno` and `marcar_realizado`
on that same appointment; those two set the status unconditionally to
`cancelado` / `realizado`, whatever the current status (so Completed can
still become Cancelled and vice versa), and no operation ever returns the
appointment to `activo`. -/
theorem C2_terminal_amended (g : GestorTurnos) (op : Op) (k : String) (t : Turno)
    (hInv : Invariante g) (hmem : g.turnos.lookup k = some t)
    (hterm : t.estado ≠ "activo") :
    ∃ t2, (applyOp g op).turnos.lookup k = some t2 ∧ t2.estado ≠ "activo" ∧
      (op = Op.cancelar k → t2.estado = "cancelado") ∧
      (op = Op.marcar k → t2.estado = "realizado") ∧
      (op ≠ Op.cancelar k → op ≠ Op.marcar k → t2.estado = t.estado) := by
  obtain ⟨hc, ht, ha, hcw, htw⟩ := hInv
  cases op with
  | registrar dni nombre telefono =>
    refine ⟨t, ?_, hterm, fun hcon => absurd hcon (by simp),
      fun hcon => absurd hcon (by simp), fun _ _ => rfl⟩
    unfold applyOp
    dsimp only []
    by_cases hdup : hasCliente g (pyStrip dni) = true
    · rw [registrar_err hdup]
      exact hmem
    · rw [registrar_ok_eq nombre telefono
        (by revert hdup; cases hasCliente g (pyStrip dni) <;> simp)]
      exact hmem
  | solicitar a b c d =>
    refine ⟨t, ?_, hterm, fun hcon => absurd hcon (by simp),
      fun hcon => absurd hcon (by simp), fun _ _ => rfl⟩
    unfold applyOp
    dsimp only []
    cases hr : solicitar_turno g a b c d with
    | error e => exact hmem
    | ok res =>
      obtain ⟨g1, t1⟩ := res
      dsimp only []
      by_cases hcli : hasCliente g a = true
      case neg =>
        rw [solicitar_unknown b c d
          (by revert hcli; cases hasCliente g a <;> simp)] at hr
        exact absurd hr (by simp)
      case pos =>
        cases hp : parseDT b with
        | none =>
          rw [solicitar_badts c d hcli hp] at hr
          exact absurd hr (by simp)
        | some dt =>
          cases hguard : g.turnos.any
              (fun p => p.2.estado == "activo" && p.2.datetime_str == formatDT dt) with
          | true =>
            rw [solicitar_conflict c d hcli hp hguard] at hr
            exact absurd hr (by simp)
          | false =>
            rw [solicitar_ok_eq c d hcli hp hguard] at hr
            obtain ⟨hg1, ht1⟩ := Prod.mk.inj (Except.ok.inj hr)
            rw [← hg1]
            dsimp only []
            have hkne : k ≠ mkId g.nextId := by
              have hkm := lookup_mem hmem
              have hfr := (htw _ hkm).2.2.2.2
              dsimp only [] at hfr
              rcases List.mem_map.1 hfr with ⟨n, hn, hne⟩
              intro he
              rw [he] at hne
              have hnn := mkId_inj hne
              rw [hnn] at hn
              exact absurd (List.mem_range.1 hn) (lt_irrefl _)
            rw [lookup_dictSet_ne _ g.turnos hkne]
            exact hmem
  | modificar j ndt nsv nnt =>
    unfold applyOp
    dsimp only []
    cases hr : modificar_turno g j ndt nsv nnt with
    | error e =>
      exact ⟨t, hmem, hterm, fun hcon => absurd hcon (by simp),
        fun hcon => absurd hcon (by simp), fun _ _ => rfl⟩
    | ok res =>
      obtain ⟨g1, t3⟩ := res
      dsimp only []
      obtain ⟨u, hl, hg1, hid, hest, hdni, hdts⟩ := modificar_ok_cases hr
      rw [hg1]
      dsimp only []
      by_cases hjk : j = k
      · rw [hjk] at hl
        have hut : u = t := Option.some.inj (hl.symm.trans hmem)
        refine ⟨t3, ?_, ?_, fun hcon => absurd hcon (by simp),
          fun hcon => absurd hcon (by simp), fun _ _ => ?_⟩
        · rw [hjk]
          exact lookup_dictSet k t3 g.turnos
        · rw [hest, hut]
          exact hterm
        · rw [hest, hut]
      · refine ⟨t, ?_, hterm, fun hcon => absurd hcon (by simp),
          fun hcon => absurd hcon (by simp), fun _ _ => rfl⟩
        rw [lookup_dictSet_ne t3 g.turnos (fun he => hjk he.symm)]
        exact hmem
  | cancelar j =>
    unfold applyOp
    dsimp only []
    cases hr : cancelar_turno g j with
    | error e =>
      refine ⟨t, hmem, hterm, ?_, fun hcon => absurd hcon (by simp), fun _ _ => rfl⟩
      intro hcon
      have hjk : j = k := by injection hcon
      exfalso
      cases hl : g.turnos.lookup j with
      | some u =>
        rw [cancelar_ok_eq hl] at hr
        exact absurd hr (by simp)
      | none =>
        rw [hjk] at hl
        rw [hl] at hmem
        exact Option.noConfusion hmem
    | ok res =>
      obtain ⟨g1, t1⟩ := res
      dsimp only []
      cases hl : g.turnos.lookup j with
      | none =>
        rw [cancelar_err hl] at hr
        exact absurd hr (by simp)
      | some u =>
        rw [cancelar_ok_eq hl] at hr
        obtain ⟨hg1, ht1⟩ := Prod.mk.inj (Except.ok.inj hr)
        rw [← hg1]
        dsimp only []
        by_cases hjk : j = k
        · refine ⟨{ u with estado := "cancelado" }, ?_, by simp, fun _ => rfl,
            fun hcon => absurd hcon (by simp), fun hcon _ => absurd (by rw [hjk]) hcon⟩
          rw [hjk]
          exact lookup_dictSet k _ g.turnos
        · refine ⟨t, ?_, hterm, ?_, fun hcon => absurd hcon (by simp), fun _ _ => rfl⟩
          · rw [lookup_dictSet_ne _ g.turnos (fun he => hjk he.symm)]
            exact hmem
          · intro hcon
            exact absurd (by injection hcon) hjk
  | marcar j =>
    unfold applyOp
    dsimp only []
    cases hr : marcar_realizado g j with
    | error e =>
      refine ⟨t, hmem, hterm, fun hcon => absurd hcon (by simp), ?_, fun _ _ => rfl⟩
      intro hcon
      have hjk : j = k := by injection hcon
      exfalso
      cases hl : g.turnos.lookup j with
      | some u =>
        rw [marcar_ok_eq hl] at hr
        exact absurd hr (by simp)
      | none =>
        rw [hjk] at hl
        rw [hl] at hmem
        exact Option.noConfusion hmem
    | ok res =>
      obtain ⟨g1, t1⟩ := res
      dsimp only []
      cases hl : g.turnos.lookup j with
      | none =>
        rw [marcar_err hl] at hr
        exact absurd hr (by simp)
      | some u =>
        rw [marcar_ok_eq hl] at hr
        obtain ⟨hg1, ht1⟩ := Prod.mk.inj (Except.ok.inj hr)
        rw [← hg1]
        dsimp only []
        by_cases hjk : j = k
        · refine ⟨{ u with estado := "realizado" }, ?_, by simp,
            fun hcon => absurd hcon (by simp), fun _ => rfl,
            fun _ hcon => absurd (by rw [hjk]) hcon⟩
          rw [hjk]
          exact lookup_dictSet k _ g.turnos
        · refine ⟨t, ?_, hterm, fun hcon => absurd hcon (by simp), ?_, fun _ _ => rfl⟩
          · rw [lookup_dictSet_ne _ g.turnos (fun he => hjk he.symm)]
            exact hmem
          · intro hcon
            exact absurd (by injection hcon) hjk

theorem C2_terminal_amended_witness :
    ∃ t2, (applyOp (run opsB) (Op.modificar (mkId 0) (some "2024-03-02 10:00")
        none none)).turnos.lookup (mkId 0) = some t2 ∧ t2.estado ≠ "activo" ∧
      (Op.modificar (mkId 0) (some "2024-03-02 10:00") none none =
        Op.cancelar (mkId 0) → t2.estado = "cancelado") ∧
      (Op.modificar (mkId 0) (some "2024-03-02 10:00") none none =
        Op.marcar (mkId 0) → t2.estado = "realizado") ∧
      (Op.modificar (mkId 0) (some "2024-03-02 10:00") none none ≠
          Op.cancelar (mkId 0) →
        Op.modificar (mkId 0) (some "2024-03-02 10:00") none none ≠
          Op.marcar (mkId 0) →
        t2.estado = (⟨mkId 0, "111", "2024-03-01 10:00", "Cut", "realizado",
          ""⟩ : Turno).estado) :=
  C2_terminal_amended (run opsB)
    (Op.modificar (mkId 0) (some "2024-03-02 10:00") none none) (mkId 0)
    ⟨mkId 0, "111", "2024-03-01 10:00", "Cut", "realizado", ""⟩
    (by decide) (by decide) (by decide)

/-- C2 (counterexample to the claim as stated): Completed is not terminal:
after `marcar_realizado` the appointment's status is `realizado`, and a later
`cancelar_turno` on the same appointment changes it to `cancelado`. -/
theorem C2_terminal_cex :
    ((run opsB).turnos.lookup (mkId 0)).map (·.estado) = some "realizado" ∧
    ((run (opsB ++ [Op.cancelar (mkId 0)])).turnos.lookup (mkId 0)).map (·.estado) =
      some "cancelado" := by
  constructor
  · rfl
  · rfl

/-- C1: over every operation sequence from the empty manager no two distinct
appointments are simultaneously Active at the same `datetime_str`; moreover a
`solicitar_turno` whose parsed timestamp renders to the `datetime_str` of an
Active appointment, and a `modificar_turno` whose parsed new timestamp
renders to the `datetime_str` of a *different* Active appointment, both raise
`SlotConflict` and leave the state unchanged. -/
theorem C1_slot_exclusive (ops : List Op) (dni dts servicio notas : String)
    (tid s : String) (nsv nnt : Option String) :
    ActivosUnicos (run ops).turnos ∧
    (∀ dt, hasCliente (run ops) dni = true → parseDT dts = some dt →
      (∃ p ∈ (run ops).turnos, p.2.estado = "activo" ∧
        p.2.datetime_str = formatDT dt) →
      solicitar_turno (run ops) dni dts servicio notas = .error .slotConflict ∧
      applyOp (run ops) (Op.solicitar dni dts servicio notas) = run ops) ∧
    (∀ dt t, (run ops).turnos.lookup tid = some t → s ≠ "" → parseDT s = some dt →
      (∃ p ∈ (run ops).turnos, p.1 ≠ tid ∧ p.2.estado = "activo" ∧
        p.2.datetime_str = formatDT dt) →
      modificar_turno (run ops) tid (some s) nsv nnt = .error .slotConflict ∧
      applyOp (run ops) (Op.modificar tid (some s) nsv nnt) = run ops) := by
  obtain ⟨hc, ht, ha, hcw, htw⟩ := inv_run ops
  refine ⟨ha, ?_, ?_⟩
  · intro dt hcli hp hex
    have hguard : (run ops).turnos.any
        (fun p => p.2.estado == "activo" && p.2.datetime_str == formatDT dt) = true := by
      apply List.any_eq_true.2
      rcases hex with ⟨p, hpm, hpa, hpd⟩
      exact ⟨p, hpm, by simp [hpa, hpd]⟩
    refine ⟨solicitar_conflict servicio notas hcli hp hguard, ?_⟩
    unfold applyOp
    dsimp only []
    rw [solicitar_conflict servicio notas hcli hp hguard]
  · intro dt t hl hs hp hex
    have hguard : (run ops).turnos.any
        (fun p => p.2.id != t.id && p.2.estado == "activo" &&
          p.2.datetime_str == formatDT dt) = true := by
      apply List.any_eq_true.2
      rcases hex with ⟨p, hpm, hpk, hpa, hpd⟩
      refine ⟨p, hpm, ?_⟩
      have hpid : p.2.id = p.1 := (htw p hpm).1
      have htid : t.id = tid := (htw (tid, t) (lookup_mem hl)).1
      have hne : p.2.id ≠ t.id := by
        rw [hpid, htid]
        exact hpk
      simp [hne, hpa, hpd]
    refine ⟨modificar_conflict nsv nnt hl hs hp hguard, ?_⟩
    unfold applyOp
    dsimp only []
    rw [modificar_conflict nsv nnt hl hs hp hguard]

theorem C1_slot_exclusive_witness :
    ActivosUnicos (run opsA).turnos ∧
    (solicitar_turno (run opsA) "111" "2024-03-01 10:00" "X" "" =
        .error .slotConflict ∧
      applyOp (run opsA) (Op.solicitar "111" "2024-03-01 10:00" "X" "") = run opsA) ∧
    (modificar_turno (run opsA2) (mkId 1) (some "2024-03-01 10:00") none none =
        .error .slotConflict ∧
      applyOp (run opsA2) (Op.modificar (mkId 1) (some "2024-03-01 10:00")
        none none) = run opsA2) :=
  ⟨(C1_slot_exclusive opsA "" "" "" "" "" "" none none).1,
   (C1_slot_exclusive opsA "111" "2024-03-01 10:00" "X" "" "" "" none none).2.1
     ⟨2024, 3, 1, 10, 0⟩ (by decide) (by decide) (by decide),
   (C1_slot_exclusive opsA2 "" "" "" "" (mkId 1) "2024-03-01 10:00" none none).2.2
     ⟨2024, 3, 1, 10, 0⟩
     ⟨mkId 1, "111", "2024-03-01 11:00", "Color", "activo", ""⟩
     (by decide) (by decide) (by decide) (by decide)⟩

theorem decorate_some : ∀ ts : List Turno,
    (∀ t ∈ ts, (parseDT t.datetime_str).isSome = true) →
    ∃ ps, decorate ts = some ps ∧ ps.map (·.1) = ts ∧
      ∀ p ∈ ps, parseDT p.1.datetime_str = some p.2 := by
  intro ts
  induction ts with
  | nil => intro _; exact ⟨[], rfl, rfl, by simp⟩
  | cons t ts ih =>
    intro h
    have hhead := h t (List.mem_cons_self t ts)
    rcases Option.isSome_iff_exists.1 hhead with ⟨dt, hdt⟩
    rcases ih (fun u hu => h u (List.mem_cons_of_mem t hu)) with ⟨ps, h1, h2, h3⟩
    refine ⟨(t, dt) :: ps, ?_, by simp [h2], ?_⟩
    · unfold decorate
      rw [hdt, h1]
    · intro p hp
      rcases List.mem_cons.1 hp with he | hp
      · rw [he]
        exact hdt
      · exact h3 p hp

/-- C7 (amended): with no filter, `listar_turnos` on any reachable state
returns (a permutation of) every stored appointment sorted ascending by the
parsed timestamp — but only non-strictly: appointments that are not Active
may share a timestamp with another appointment, so ties can occur. -/
theorem C7_sorted_amended (ops : List Op) :
    ∃ l, listar_turnos (run ops) none none none = .ok l ∧
      List.Perm l ((run ops).turnos.map (·.2)) ∧
      l.Pairwise (fun a b => dtKeyOf a ≤ dtKeyOf b) := by
  obtain ⟨hc, ht, ha, hcw, htw⟩ := inv_run ops
  have hparse : ∀ t ∈ (run ops).turnos.map (·.2), (parseDT t.datetime_str).isSome = true := by
    intro t htm
    rcases List.mem_map.1 htm with ⟨p, hp, he⟩
    have hcanon := (htw p hp).2.2.1
    unfold canonicalDT at hcanon
    rw [← he]
    cases hps : parseDT p.2.datetime_str with
    | none => rw [hps] at hcanon; exact absurd hcanon (by simp)
    | some u => rfl
  have hloop : listarLoop none none none ((run ops).turnos.map (·.2)) =
      .ok ((run ops).turnos.map (·.2)) := by
    rw [listarLoop_nofecha none none none rfl]
    congr 1
    apply List.filter_eq_self.2
    intro a _
    rfl
  rcases decorate_some ((run ops).turnos.map (·.2)) hparse with ⟨ps, hdec, hmap, hlink⟩
  have htot : ∀ a b : Turno × FechaHora, dtLeb a b = false → dtLeb b a = true := by
    intro a b h
    simp only [dtLeb, decide_eq_false_iff_not, not_le] at h
    simp only [dtLeb, decide_eq_true_eq]
    omega
  have htrans : ∀ a b c : Turno × FechaHora,
      dtLeb a b = true → dtLeb b c = true → dtLeb a c = true := by
    intro a b c h1 h2
    simp only [dtLeb, decide_eq_true_eq] at h1 h2 ⊢
    omega
  refine ⟨(sortLe dtLeb ps).map (·.1), ?_, ?_, ?_⟩
  · unfold listar_turnos
    rw [hloop]
    dsimp only []
    rw [hdec]
  · rw [← hmap]
    exact List.Perm.map _ (sortLe_perm dtLeb ps)
  · have hsorted := pairwise_sortLe htot htrans ps
    have hlink2 : ∀ p ∈ sortLe dtLeb ps, parseDT p.1.datetime_str = some p.2 := by
      intro p hp
      exact hlink p ((sortLe_perm dtLeb ps).mem_iff.1 hp)
    apply List.pairwise_map.2
    apply List.Pairwise.imp_of_mem ?_ hsorted
    intro a b hma hmb hle
    have hka : dtKeyOf a.1 = dtKey a.2 := by
      unfold dtKeyOf
      rw [hlink2 a hma]
      rfl
    have hkb : dtKeyOf b.1 = dtKey b.2 := by
      unfold dtKeyOf
      rw [hlink2 b hmb]
      rfl
    rw [hka, hkb]
    simpa [dtLeb] using hle

/-- C7 (counterexample to the claim as stated): after cancelling the 10:00
appointment and booking a new one at the same time, the unfiltered listing
returns both appointments with the same `scheduledAt`, so the output is not
strictly ascending and two returned appointments share a timestamp. -/
theorem C7_sorted_cex :
    listar_turnos (run opsD) none none none =
      .ok [⟨mkId 0, "111", "2024-03-01 10:00", "Cut", "cancelado", ""⟩,
           ⟨mkId 1, "111", "2024-03-01 10:00", "Color", "activo", ""⟩] ∧
    ¬ ([⟨mkId 0, "111", "2024-03-01 10:00", "Cut", "cancelado", ""⟩,
        ⟨mkId 1, "111", "2024-03-01 10:00", "Color", "activo", ""⟩] : List Turno).Pairwise
        (fun a b => dtKeyOf a < dtKeyOf b) := by
  constructor
  · rfl
  · decide

theorem not_mem_any_false {α : Type} {l : List (String × α)} {k : String}
    (h : k ∉ l.map Prod.fst) : l.any (·.1 == k) = false := by
  cases hv : l.any (·.1 == k) with
  | false => rfl
  | true => exact absurd (any_key_iff.1 hv) h

theorem loadRows_dump_aux (g : GestorTurnos) (hInv : Invariante g) :
    ∀ (rest : List (String × Turno)) (st : LoadSt),
      (∀ p ∈ rest, p ∈ g.turnos) →
      (rest.map Prod.fst).Nodup →
      (∀ p ∈ rest, p.1 ∉ st.turnos.map Prod.fst) →
      (∀ q ∈ st.clientes, g.clientes.lookup q.1 = some q.2) →
      ∃ st2, loadRows st (rest.map (fun p => dumpRow g p.2)) = (st2, true) ∧
        st2.turnos = st.turnos ++ rest.map (fun p => (p.1, p.2.toL)) ∧
        (∀ q ∈ st2.clientes, g.clientes.lookup q.1 = some q.2) ∧
        (∀ k, k ∈ st.clientes.map Prod.fst → k ∈ st2.clientes.map Prod.fst) ∧
        (∀ p ∈ rest, p.2.cliente_dni ≠ "" →
          p.2.cliente_dni ∈ st2.clientes.map Prod.fst) := by
  obtain ⟨hc, ht, ha, hcw, htw⟩ := hInv
  intro rest
  induction rest with
  | nil =>
    intro st _ _ _ hcl
    exact ⟨st, rfl, by simp, hcl, fun k hk => hk, by simp⟩
  | cons p rest ih =>
    intro st hsub hnd hknotin hcl
    obtain ⟨k, t⟩ := p
    have hpm : (k, t) ∈ g.turnos := hsub _ (List.mem_cons_self _ _)
    obtain ⟨htid, htdni, htcanon, htlook, htfresh⟩ := htw _ hpm
    dsimp only [] at htid htdni htlook
    rcases Option.isSome_iff_exists.1 htlook with ⟨cli, hcli⟩
    have hclimem := lookup_mem hcli
    obtain ⟨hkstr, hdnif, hnomf, htelf⟩ := hcw _ hclimem
    dsimp only [] at hkstr hdnif hnomf htelf
    have hrow : dumpRow g t = [t.id, t.cliente_dni, cli.nombre, cli.telefono,
        t.datetime_str, t.servicio, t.estado, t.notas] := by
      unfold dumpRow
      rw [hcli]
    have hTL : (⟨t.id, pyStrip t.cliente_dni, some t.datetime_str, some t.servicio,
        some t.estado, some t.notas⟩ : TurnoL) = t.toL := by
      unfold Turno.toL
      rw [htdni]
    have hCL : (⟨t.cliente_dni, pyStrip cli.nombre, pyStrip cli.telefono⟩ : Cliente) = cli := by
      rw [hnomf, htelf, ← hdnif]
    have hknotin1 : t.id ∉ st.turnos.map Prod.fst := by
      rw [htid]
      exact hknotin _ (List.mem_cons_self _ _)
    have hsetT : dictSet t.id t.toL st.turnos = st.turnos ++ [(k, t.toL)] := by
      rw [dictSet_of_not_mem _ (not_mem_any_false hknotin1), htid]
    have hproc : processRow st (dumpRow g t) = some
        ⟨if (t.cliente_dni != "" && !(st.clientes.any (·.1 == t.cliente_dni)))
          then dictSet t.cliente_dni cli st.clientes else st.clientes,
         st.turnos ++ [(k, t.toL)]⟩ := by
      rw [hrow]
      unfold processRow
      dsimp only [List.get?]
      rw [hTL, hsetT, htdni, hCL]
      cases hcond : (t.cliente_dni != "" && !(st.clientes.any (·.1 == t.cliente_dni))) with
      | true => rw [if_pos rfl]; rfl
      | false => rw [if_neg (by simp)]; rfl
    have hcl1 : ∀ q ∈ (if (t.cliente_dni != "" &&
          !(st.clientes.any (·.1 == t.cliente_dni)))
        then dictSet t.cliente_dni cli st.clientes else st.clientes),
        g.clientes.lookup q.1 = some q.2 := by
      cases hcond : (t.cliente_dni != "" && !(st.clientes.any (·.1 == t.cliente_dni))) with
      | false =>
        rw [if_neg (by simp)]
        exact hcl
      | true =>
        rw [if_pos rfl]
        have hnotin : st.clientes.any (·.1 == t.cliente_dni) = false := by
          revert hcond
          cases st.clientes.any (·.1 == t.cliente_dni) <;> simp
        rw [dictSet_of_not_mem _ hnotin]
        intro q hq
        rcases List.mem_append.1 hq with hq | hq
        · exact hcl q hq
        · have hqe : q = (t.cliente_dni, cli) := by simpa using hq
          rw [hqe]
          exact hcli
    have hgrow1 : ∀ k2, k2 ∈ st.clientes.map Prod.fst →
        k2 ∈ (if (t.cliente_dni != "" && !(st.clientes.any (·.1 == t.cliente_dni)))
          then dictSet t.cliente_dni cli st.clientes else st.clientes).map Prod.fst := by
      cases hcond : (t.cliente_dni != "" && !(st.clientes.any (·.1 == t.cliente_dni))) with
      | false =>
        rw [if_neg (by simp)]
        exact fun k2 hk2 => hk2
      | true =>
        rw [if_pos rfl]
        have hnotin : st.clientes.any (·.1 == t.cliente_dni) = false := by
          revert hcond
          cases st.clientes.any (·.1 == t.cliente_dni) <;> simp
        rw [dictSet_of_not_mem _ hnotin]
        intro k2 hk2
        simp only [List.map_append, List.mem_append]
        exact Or.inl hk2
    have hdniin : t.cliente_dni ≠ "" →
        t.cliente_dni ∈ (if (t.cliente_dni != "" &&
            !(st.clientes.any (·.1 == t.cliente_dni)))
          then dictSet t.cliente_dni cli st.clientes else st.clientes).map Prod.fst := by
      intro hne
      cases hcond : (t.cliente_dni != "" && !(st.clientes.any (·.1 == t.cliente_dni))) with
      | true =>
        rw [if_pos rfl]
        have hnotin : st.clientes.any (·.1 == t.cliente_dni) = false := by
          revert hcond
          cases st.clientes.any (·.1 == t.cliente_dni) <;> simp
        rw [dictSet_of_not_mem _ hnotin]
        simp
      | false =>
        rw [if_neg (by simp)]
        have hany : st.clientes.any (·.1 == t.cliente_dni) = true := by
          cases ha : (t.cliente_dni != "") with
          | false =>
            exfalso
            apply hne
            simpa using ha
          | true =>
            rw [ha] at hcond
            simp only [Bool.true_and] at hcond
            revert hcond
            cases st.clientes.any (·.1 == t.cliente_dni) <;> simp
        exact any_key_iff.1 hany
    have hknd : k ∉ rest.map Prod.fst := by
      simp only [List.map_cons, List.nodup_cons] at hnd
      exact hnd.1
    obtain ⟨st2, ihrun, ihturnos, ihcl, ihgrow, ihdni⟩ :=
      ih ⟨(if (t.cliente_dni != "" && !(st.clientes.any (·.1 == t.cliente_dni)))
            then dictSet t.cliente_dni cli st.clientes else st.clientes),
          st.turnos ++ [(k, t.toL)]⟩
        (fun q hq => hsub q (List.mem_cons_of_mem _ hq))
        (by simp only [List.map_cons, List.nodup_cons] at hnd; exact hnd.2)
        (by
          intro q hq
          dsimp only []
          simp only [List.map_append, List.mem_append, List.map_cons, List.map_nil]
          rintro (hin | hin)
          · exact hknotin q (List.mem_cons_of_mem _ hq) hin
          · have hqk : q.1 = k := by simpa using hin
            exact hknd (hqk ▸ List.mem_map_of_mem Prod.fst hq))
        hcl1
    refine ⟨st2, ?_, ?_, ihcl, ?_, ?_⟩
    · simp only [List.map_cons]
      unfold loadRows
      rw [hproc]
      exact ihrun
    · rw [ihturnos]
      dsimp only []
      simp [List.append_assoc]
    · intro k2 hk2
      exact ihgrow k2 (hgrow1 k2 hk2)
    · intro q hq hne
      rcases List.mem_cons.1 hq with hqe | hq2
      · rw [hqe]
        dsimp only []
        exact ihgrow _ (by rw [hqe] at hne; dsimp only [] at hne; exact hdniin hne)
      · exact ihdni q hq2 hne

/-- C6 (amended): for every reachable state, dumping to the row export and
loading it back into an empty manager succeeds, reproduces the appointment
map exactly (up to the `Option`-typing of the loader), and rebuilds every
client with a nonempty id that is referenced by some appointment with exactly
the denormalized name and phone that were written; a client under the empty
id is referenced by its appointments but never recreated, because the loader
skips client creation for a falsy id. -/
theorem C6_csv_roundtrip_amended (ops : List Op) :
    (load_from_csv (dump_to_csv (run ops))).2 = true ∧
    (load_from_csv (dump_to_csv (run ops))).1.turnos =
      (run ops).turnos.map (fun p => (p.1, p.2.toL)) ∧
    ∀ p ∈ (run ops).turnos, p.2.cliente_dni ≠ "" →
      (load_from_csv (dump_to_csv (run ops))).1.clientes.lookup p.2.cliente_dni =
        (run ops).clientes.lookup p.2.cliente_dni := by
  have hInv := inv_run ops
  obtain ⟨st2, hrun, hturnos, hcl, hgrow, hdni⟩ :=
    loadRows_dump_aux (run ops) hInv (run ops).turnos ⟨[], []⟩
      (fun p hp => hp) hInv.2.1 (by simp) (by simp)
  have heq : load_from_csv (dump_to_csv (run ops)) = (st2, true) := by
    unfold load_from_csv dump_to_csv
    exact hrun
  rw [heq]
  refine ⟨rfl, ?_, ?_⟩
  · dsimp only []
    rw [hturnos]
    simp
  · intro p hp hne
    dsimp only []
    have hin := hdni p hp hne
    have hsome : (st2.clientes.lookup p.2.cliente_dni).isSome = true :=
      lookup_isSome_iff_any.2 (any_key_iff.2 hin)
    rcases Option.isSome_iff_exists.1 hsome with ⟨v, hv⟩
    rw [hv]
    exact (hcl _ (lookup_mem hv)).symm

theorem C6_csv_roundtrip_amended_witness :
    (load_from_csv (dump_to_csv (run opsA))).2 = true ∧
    (load_from_csv (dump_to_csv (run opsA))).1.turnos =
      (run opsA).turnos.map (fun p => (p.1, p.2.toL)) ∧
    (load_from_csv (dump_to_csv (run opsA))).1.clientes.lookup "111" =
      (run opsA).clientes.lookup "111" :=
  ⟨(C6_csv_roundtrip_amended opsA).1, (C6_csv_roundtrip_amended opsA).2.1,
   (C6_csv_roundtrip_amended opsA).2.2
     (mkId 0, ⟨mkId 0, "111", "2024-03-01 10:00", "Cut", "activo", ""⟩)
     (by decide) (by decide)⟩

/-- C6 (counterexample to the claim as stated): a client registered under the
empty id is referenced by its appointment and is present in the original
client map, but after a CSV dump and reload the client map is empty: the
loader treats the empty (falsy) id as "no client" and never recreates the
record, so not every client referenced by some appointment gets its written
name and phone back. -/
theorem C6_csv_roundtrip_cex :
    (run opsC).turnos.map (fun p => p.2.cliente_dni) = [""] ∧
    (run opsC).clientes.lookup "" = some ⟨"", "Ana", "123"⟩ ∧
    (load_from_csv (dump_to_csv (run opsC))).1.clientes = [] := by
  refine ⟨rfl, rfl, rfl⟩
